import Mathlib

/-!
Verification development for the Steam Game Comparator (`sgc.py`).

The embedding below translates the core of `sgc.py` into Lean:

* strings are `List Char` (CPython `str` indexing/slicing semantics are
  modelled with `List.drop`/`List.take`);
* `str.index`/`str.find` become `firstIdxFrom` (first index at which the
  pattern is a prefix of the remaining input);
* the global dictionary `master_games` becomes an explicit association
  list threaded through the functions; Python dict assignment
  (`d[k] = v`: update in place if the key exists, else append) is
  `dictInsert`, and Python `dict` iteration order is the list order;
* `json.loads` is modelled by `jsonLoads`, an executable parser for the
  JSON fragment actually exchanged by the page data: strings without
  escape sequences, nonnegative integer literals, flat objects whose
  values are strings or numbers, and arrays of such values.  Python
  exceptions become an explicit error type `Err`;
* the injected HTTP capability (`httplib2.Http`) becomes a function from
  a URL to a `Response`; the BeautifulSoup structural queries
  (`soup.find('div', class_='games_list')`, `profile_private_info`) and
  `soup.prettify()` become the fields of a `Doc`.
-/

/-- Errors of `sgc.py`: the five exception classes it defines, plus the
Python built-in exceptions its code can raise (`AssertionError` from the
`assert` statements in `get_html`, `json.JSONDecodeError` from
`json.loads`, `KeyError`/`TypeError` from subscripting decoded values). -/
inductive Err where
  | privateProfile
  | missingProfile
  | malformedSteamURL
  | findNameError
  | findGamesError
  | assertionError
  | jsonDecodeError
  | keyError
  | typeError
deriving DecidableEq

/-- Atomic JSON values occurring in the page data: strings and
nonnegative integers. -/
inductive JAtom where
  | jstr (s : List Char)
  | jnum (n : Nat)
deriving DecidableEq

/-- A decoded JSON entity: an atom or a flat object (string keys, atomic
values), as produced by `json.loads` on the game-list fragments. -/
inductive JEntity where
  | atom (a : JAtom)
  | obj (kvs : List (List Char × JAtom))
deriving DecidableEq

/-- A decoded top-level JSON document: a single entity or an array. -/
inductive JDoc where
  | single (e : JEntity)
  | arr (xs : List JEntity)
deriving DecidableEq

/-- Python dict lookup `m[k]` on an association list (first match). -/
def dictFind {α β : Type} [DecidableEq α] (m : List (α × β)) (k : α) : Option β :=
  match m with
  | [] => none
  | (k', v) :: rest => if k' = k then some v else dictFind rest k

/-- Python dict assignment `m[k] = v`: if the key is present its value is
replaced in place (the key keeps its insertion position), otherwise the
pair is appended. -/
def dictInsert {α β : Type} [DecidableEq α] (m : List (α × β)) (k : α) (v : β) :
    List (α × β) :=
  match m with
  | [] => [(k, v)]
  | (k', v') :: rest => if k' = k then (k, v) :: rest else (k', v') :: dictInsert rest k v

/-- Python `set.add`: append the element unless already present. -/
def setAdd {α : Type} [DecidableEq α] (l : List α) (a : α) : List α :=
  if a ∈ l then l else l ++ [a]

/-- The master games dictionary (`master_games`): appid to title. -/
abbrev Catalog := List (JAtom × JAtom)

/-- Python `sub in s` / `s.isPrefOf`-style check: is `pat` an initial
segment of `s`? -/
def isPrefOf : List Char → List Char → Bool
  | [], _ => true
  | _ :: _, [] => false
  | a :: as, b :: bs => a = b && isPrefOf as bs

/-- Python `s.index(pat)` / `s.find(pat)`: the first index at which `pat`
occurs in `s`, if any. -/
def firstIdxFrom (pat : List Char) : List Char → Option Nat
  | [] => if pat.isEmpty then some 0 else none
  | c :: rest =>
    if isPrefOf pat (c :: rest) then some 0
    else (firstIdxFrom pat rest).map (· + 1)

/-- Python `pat in s` on strings: substring containment. -/
def isSubstrOf (pat s : List Char) : Bool :=
  (firstIdxFrom pat s).isSome

/-- Python slice `s[a:b]`. -/
def sliceL (s : List Char) (a b : Nat) : List Char :=
  (s.drop a).take (b - a)


/-- The opening brace character. -/
def lbrace : Char := Char.ofNat 123

/-- The closing brace character. -/
def rbrace : Char := Char.ofNat 125

/-- JSON insignificant whitespace. -/
def isWs (c : Char) : Bool :=
  c = ' ' || c = '\n' || c = '\t' || c = '\r'

/-- Drop leading JSON whitespace. -/
def skipWs : List Char → List Char
  | [] => []
  | c :: rest => if isWs c then skipWs rest else c :: rest

/-- Is `c` a decimal digit? -/
def isDig (c : Char) : Bool :=
  48 ≤ c.toNat && c.toNat ≤ 57

/-- Numeric value of a decimal digit character. -/
def digVal (c : Char) : Nat := c.toNat - 48

/-- Character for a decimal digit. -/
def digCh (d : Nat) : Char := Char.ofNat (48 + d)

/-- Value of a big-endian digit string. -/
def charsToNat (ds : List Char) : Nat :=
  ds.foldl (fun a c => 10 * a + digVal c) 0

/-- Decimal digit string of a natural number (no sign, no leading zeros
except for `0` itself). -/
def natToChars (n : Nat) : List Char :=
  if _h : n < 10 then [digCh n]
  else natToChars (n / 10) ++ [digCh (n % 10)]
decreasing_by exact Nat.div_lt_self (by omega) (by omega)

/-- A character allowed inside a modelled JSON string literal: anything
except the closing quote, a backslash (escape sequences are not
modelled) and control characters (which `json.loads` rejects). -/
def strOk (c : Char) : Bool :=
  c ≠ '"' && c ≠ '\\' && 32 ≤ c.toNat

/-- Body of a JSON string literal, after the opening quote: the decoded
characters and the remaining input after the closing quote. -/
def parseStrBody : List Char → Option (List Char × List Char)
  | [] => none
  | c :: rest =>
    if c = '"' then some ([], rest)
    else if strOk c then (parseStrBody rest).map (fun p => (c :: p.1, p.2))
    else none

/-- An atomic JSON value (string or nonnegative integer literal). -/
def parseAtom (s : List Char) : Option (JAtom × List Char) :=
  match s with
  | [] => none
  | c :: rest =>
    if c = '"' then (parseStrBody rest).map (fun p => (JAtom.jstr p.1, p.2))
    else if isDig c then
      some (JAtom.jnum (charsToNat ((c :: rest).takeWhile isDig)),
            (c :: rest).dropWhile isDig)
    else none

/-- Entries of a JSON object, after the opening brace.  A duplicated key
replaces the earlier value at its original position, as in a Python
dict built by `json.loads`. -/
def parseEntries (fuel : Nat) (s : List Char) (acc : List (List Char × JAtom)) :
    Option (List (List Char × JAtom) × List Char) :=
  match fuel with
  | 0 => none
  | fuel + 1 =>
    match skipWs s with
    | [] => none
    | c :: rest =>
      if c = rbrace then some (acc, rest)
      else if c = '"' then
        match parseStrBody rest with
        | none => none
        | some (k, rest1) =>
          match skipWs rest1 with
          | [] => none
          | c1 :: rest2 =>
            if c1 = ':' then
              match parseAtom (skipWs rest2) with
              | none => none
              | some (v, rest3) =>
                match skipWs rest3 with
                | [] => none
                | c2 :: rest4 =>
                  if c2 = ',' then parseEntries fuel rest4 (dictInsert acc k v)
                  else if c2 = rbrace then some (dictInsert acc k v, rest4)
                  else none
            else none
      else none

/-- A JSON entity: a flat object or an atom. -/
def parseEntity (fuel : Nat) (s : List Char) : Option (JEntity × List Char) :=
  match skipWs s with
  | [] => none
  | c :: rest =>
    if c = lbrace then (parseEntries fuel rest []).map (fun p => (JEntity.obj p.1, p.2))
    else (parseAtom (c :: rest)).map (fun p => (JEntity.atom p.1, p.2))

/-- Elements of a JSON array, after the opening bracket. -/
def parseItems (fuel : Nat) (s : List Char) : Option (List JEntity × List Char) :=
  match fuel with
  | 0 => none
  | fuel + 1 =>
    match skipWs s with
    | [] => none
    | c :: rest =>
      if c = ']' then some ([], rest)
      else
        match parseEntity fuel (c :: rest) with
        | none => none
        | some (e, rest1) =>
          match skipWs rest1 with
          | [] => none
          | c1 :: rest2 =>
            if c1 = ',' then (parseItems fuel rest2).map (fun p => (e :: p.1, p.2))
            else if c1 = ']' then some ([e], rest2)
            else none

/-- Model of `json.loads`, restricted to the JSON subset exchanged by the
profile pages: a whole-input JSON value that is a string, a nonnegative
integer, a flat object, or an array of entities. -/
def jsonLoads (s : List Char) : Option JDoc :=
  match skipWs s with
  | [] => none
  | c :: rest =>
    if c = '[' then
      match parseItems (s.length + 1) rest with
      | some (xs, rest1) => if skipWs rest1 = [] then some (JDoc.arr xs) else none
      | none => none
    else
      match parseEntity (s.length + 1) (c :: rest) with
      | some (e, rest1) => if skipWs rest1 = [] then some (JDoc.single e) else none
      | none => none


instance {ε α : Type} [DecidableEq ε] [DecidableEq α] : DecidableEq (Except ε α) :=
  fun x y =>
    match x, y with
    | .ok a, .ok b =>
      if h : a = b then .isTrue (by rw [h]) else .isFalse (by intro hh; cases hh; exact h rfl)
    | .error a, .error b =>
      if h : a = b then .isTrue (by rw [h]) else .isFalse (by intro hh; cases hh; exact h rfl)
    | .ok _, .error _ => .isFalse (by intro hh; cases hh)
    | .error _, .ok _ => .isFalse (by intro hh; cases hh)

/-- A fetched document, as seen through the consumed document-structure
capability (BeautifulSoup): whether `soup.find('div', class_='games_list')`
finds an element, whether `soup.find('div', class_='profile_private_info')`
does, and the normalized textual form `soup.prettify()`. -/
structure Doc where
  hasGamesList : Bool
  hasPrivateInfo : Bool
  text : List Char
deriving DecidableEq

/-- An HTTP response of the injected fetch capability: status code,
content type header, and the parsed body. -/
structure Response where
  status : Nat
  contentType : List Char
  doc : Doc

/-- Embedding of `get_html`: `assert resp.status == 200` and
`assert 'text/html' in resp['content-type']`; a failed `assert` raises
`AssertionError`.  On success the body is returned. -/
def get_html (resp : Response) : Except Err Doc :=
  if resp.status ≠ 200 then .error .assertionError
  else if ¬ isSubstrOf "text/html".data resp.contentType then .error .assertionError
  else .ok resp.doc

/-- Embedding of the `for d in js_value` loop of `get_player_and_games`
(lines 90-93): for each record, `player_games.add(d['appid'])` then
`master_games[d['appid']] = d['name']`.  Subscripting a non-dict raises
`TypeError`; a missing key raises `KeyError`, leaving the catalog updates
of the earlier records in place. -/
def processGames : List JEntity → List JAtom → Catalog → List JAtom × Catalog × Option Err
  | [], pg, mg => (pg, mg, none)
  | .atom _ :: _, pg, mg => (pg, mg, some .typeError)
  | .obj kvs :: rest, pg, mg =>
    match dictFind kvs "appid".data with
    | none => (pg, mg, some .keyError)
    | some appid =>
      let pg' := setAdd pg appid
      match dictFind kvs "name".data with
      | none => (pg', mg, some .keyError)
      | some title => processGames rest pg' (dictInsert mg appid title)

/-- The textual marker locating the display-name definition
(`content_str.index("personaName")`, line 74). -/
def pnMark : List Char := "personaName".data

/-- The textual marker locating the game-list definition
(`content_str.index("rgGames")`, line 82). -/
def rgMark : List Char := "rgGames".data

/-- Embedding of the viable branch of `get_player_and_games` (lines
69-96), operating on the prettified text `s` and the master games
catalog.  The name fragment runs from the first `"` after the first
occurrence of `personaName` up to the first `;`; a failed `index` raises
`FindNameError` (the `except ValueError` clause), while a failed
`json.loads` on the located fragment raises `json.JSONDecodeError`
(line 78 sits outside the `try`).  The games fragment runs from the
first `[` after the first occurrence of `rgGames` through the first `]`;
failed `index` calls raise `FindGamesError`, a failed `json.loads`
raises `json.JSONDecodeError` (line 86 also sits outside its `try`).
Iterating a decoded non-list value follows the Python semantics:
iterating a string or dict yields elements whose subscripting raises
`TypeError` (or yields nothing when empty). -/
def extract_from (s : List Char) (mg : Catalog) :
    Catalog × Except Err (JDoc × List JAtom) :=
  match firstIdxFrom pnMark s with
  | none => (mg, .error .findNameError)
  | some i =>
    let jsName0 := s.drop i
    match firstIdxFrom ['"'] jsName0, firstIdxFrom [';'] jsName0 with
    | some a, some b =>
      match jsonLoads (sliceL jsName0 a b) with
      | none => (mg, .error .jsonDecodeError)
      | some name =>
        match firstIdxFrom rgMark s with
        | none => (mg, .error .findGamesError)
        | some j =>
          let js0 := s.drop j
          match firstIdxFrom ['['] js0, firstIdxFrom [']'] js0 with
          | some c, some d =>
            match jsonLoads (sliceL js0 c (d + 1)) with
            | none => (mg, .error .jsonDecodeError)
            | some (.arr xs) =>
              match processGames xs [] mg with
              | (pg, mg', none) => (mg', .ok (name, pg))
              | (_, mg', some e) => (mg', .error e)
            | some (.single (.atom (.jstr t))) =>
              if t = [] then (mg, .ok (name, [])) else (mg, .error .typeError)
            | some (.single (.atom (.jnum _))) => (mg, .error .typeError)
            | some (.single (.obj kvs)) =>
              if kvs = [] then (mg, .ok (name, [])) else (mg, .error .typeError)
          | _, _ => (mg, .error .findGamesError)
    | _, _ => (mg, .error .findNameError)

/-- The path suffix appended by `get_player_and_games` (line 62). -/
def gamesSuffix : List Char := "/games/?tab=all".data

/-- Embedding of `get_player_and_games`: append `/games/?tab=all`, fetch
via the injected capability, then classify: a `games_list` element means
the profile is viable and extraction proceeds; otherwise a
`profile_private_info` element raises `PrivateProfile`; otherwise
`MissingProfile`.  The function returns the (possibly updated) master
games catalog together with the outcome. -/
def get_player_and_games (fetch : List Char → Response) (url : List Char)
    (mg : Catalog) : Catalog × Except Err (JDoc × List JAtom) :=
  match get_html (fetch (url ++ gamesSuffix)) with
  | .error e => (mg, .error e)
  | .ok doc =>
    if doc.hasGamesList then extract_from doc.text mg
    else if doc.hasPrivateInfo then (mg, .error .privateProfile)
    else (mg, .error .missingProfile)

/-- A resolved player record (`{'nick': name, 'games': games}`). -/
structure Player where
  nick : JDoc
  games : List JAtom
deriving DecidableEq

/-- The per-player ownership row for a game: in player order, whether
each player's game set contains the appid. -/
def membershipRow (appid : JAtom) (pd : List Player) : List Bool :=
  pd.map (fun p => decide (appid ∈ p.games))

/-- The `shared_games` dictionary built by the loop of
`find_common_games`: iterate the master games catalog in insertion
order; for each appid build the ownership row and count the owners
(`total_owners`); keep the appid exactly when more than one player owns
it. -/
def sharedOf (pd : List Player) (mg : Catalog) : List (JAtom × List Bool) :=
  mg.filterMap (fun kv =>
    if 1 < (membershipRow kv.1 pd).count true
    then some (kv.1, membershipRow kv.1 pd) else none)

/-- Embedding of `find_common_games`: build `shared_games` and return
`None` when it is empty (no game is owned by more than one player). -/
def find_common_games (pd : List Player) (mg : Catalog) :
    Option (List (JAtom × List Bool)) :=
  if sharedOf pd mg = [] then none else some (sharedOf pd mg)

/-- The accepted URL formats of `verify_steam_url_format` (lines
235-238), in their order of appearance. -/
def formats : List (List Char) :=
  [ "http://steamcommunity.com/profiles/".data,
    "http://steamcommunity.com/id/".data,
    "steamcommunity.com/profiles/".data,
    "steamcommunity.com/id/".data ]

/-- Python `s.find(sub, start)`: first occurrence index at or after
`start`, as an `Option` instead of `-1`. -/
def findFrom (s pat : List Char) (start : Nat) : Option Nat :=
  (firstIdxFrom pat (s.drop start)).map (· + start)

/-- Embedding of `verify_steam_url_format`: the first accepted format
found at index 0 selects the branch; absent any match the function
raises `MalformedSteamURL`.  A `/` at or after the end of the matched
format truncates the URL there, and a missing `http://` substring is
prepended. -/
def verify_steam_url_format (url : List Char) : Except Err (List Char) :=
  match formats.find? (fun possible => isPrefOf possible url) with
  | none => .error .malformedSteamURL
  | some possible =>
    let url1 :=
      match findFrom url ['/'] possible.length with
      | some t => url.take t
      | none => url
    if isSubstrOf "http://".data url1 then .ok url1
    else .ok ("http://".data ++ url1)

/-- The last title assigned to appid `k` by a record list, if any: the
value a Python dict holds for a key after a sequence of assignments is
the last one assigned. -/
def lastTitleFor (k : JAtom) : List JEntity → Option JAtom
  | [] => none
  | .atom _ :: rest => lastTitleFor k rest
  | .obj kvs :: rest =>
    match lastTitleFor k rest with
    | some t => some t
    | none =>
      if dictFind kvs "appid".data = some k then dictFind kvs "name".data else none

/-- An HTML content type header. -/
def htmlCT : List Char := "text/html; charset=utf-8".data

/-- A successful HTML response carrying the given document. -/
def mkResp (d : Doc) : Response := ⟨200, htmlCT, d⟩

/-- A viable profile document whose game list titles appid 1 `First`. -/
def docTitleA : Doc :=
  ⟨true, false,
    "personaName = \"A\"; rgGames = [\x7b\"appid\": 1, \"name\": \"First\"\x7d];".data⟩

/-- A viable profile document whose game list titles appid 1 `Second`. -/
def docTitleB : Doc :=
  ⟨true, false,
    "personaName = \"B\"; rgGames = [\x7b\"appid\": 1, \"name\": \"Second\"\x7d];".data⟩

/-- A viable profile document whose second game record lacks a title. -/
def docPartial : Doc :=
  ⟨true, false,
    "personaName = \"P\"; rgGames = [\x7b\"appid\": 1, \"name\": \"X\"\x7d, \x7b\"appid\": 2\x7d];".data⟩

/-- A viable profile document whose game-list fragment is not valid
JSON. -/
def docBadJson : Doc :=
  ⟨true, false, "personaName = \"P\"; rgGames = [\x7d];".data⟩

/-- A viable profile document without any `rgGames` marker. -/
def docNoGames : Doc :=
  ⟨true, false, "personaName = \"P\"; nothing here".data⟩

/-- A document carrying both the game-list marker and the
restricted-profile marker. -/
def docBoth : Doc :=
  ⟨true, true,
    "personaName = \"A\"; rgGames = [\x7b\"appid\": 1, \"name\": \"First\"\x7d];".data⟩

/-- No occurrence of `pat` anywhere in `u`. -/
def NoOcc (pat u : List Char) : Prop :=
  ∀ i, isPrefOf pat (u.drop i) = false

/-- Leading markup of the synthetic fixture document. -/
def docHeader : List Char := "<html>\n".data

/-- Trailing markup of the synthetic fixture document. -/
def docFooter : List Char := "\n</html>".data

/-- The JSON fragment encoding the display name. -/
def nameFrag (name : List Char) : List Char := ['"'] ++ name ++ ['"']

/-- The JSON record `\x7b"appid": id, "name": "title"\x7d` of one game. -/
def printRec (r : Nat × List Char) : List Char :=
  [lbrace] ++ "\"appid\": ".data ++ natToChars r.1 ++ ", \"name\": \"".data ++
    r.2 ++ ['"', rbrace]

/-- Comma-joined game records. -/
def printRecs : List (Nat × List Char) → List Char
  | [] => []
  | [r] => printRec r
  | r :: rest => printRec r ++ ", ".data ++ printRecs rest

/-- The JSON fragment encoding the game list. -/
def gamesFrag (recs : List (Nat × List Char)) : List Char :=
  ['['] ++ printRecs recs ++ [']']

/-- The part of the fixture following the `rgGames` marker. -/
def afterRg (recs : List (Nat × List Char)) : List Char :=
  " = ".data ++ gamesFrag recs ++ [';'] ++ docFooter

/-- The fixture text from the `rgGames` marker on. -/
def gamesTail (recs : List (Nat × List Char)) : List Char :=
  rgMark ++ afterRg recs

/-- The part of the fixture following the `personaName` marker. -/
def afterPn (name : List Char) (recs : List (Nat × List Char)) : List Char :=
  " = ".data ++ nameFrag name ++ [';', '\n'] ++ gamesTail recs

/-- The fixture text from the `personaName` marker on. -/
def nameTail (name : List Char) (recs : List (Nat × List Char)) : List Char :=
  pnMark ++ afterPn name recs

/-- The whole synthetic well-formed fixture text: markup around a
display-name definition and a game-list definition. -/
def mkText (name : List Char) (recs : List (Nat × List Char)) : List Char :=
  docHeader ++ nameTail name recs

/-- The synthetic viable fixture document. -/
def mkDoc (name : List Char) (recs : List (Nat × List Char)) : Doc :=
  ⟨true, false, mkText name recs⟩

/-- The decoded JSON entity of one printed game record. -/
def recEnt (r : Nat × List Char) : JEntity :=
  .obj [("appid".data, JAtom.jnum r.1), ("name".data, JAtom.jstr r.2)]

lemma isPrefOf_nil (l : List Char) : isPrefOf [] l = true := by
  cases l <;> simp [isPrefOf]

lemma isPrefOf_iff_append (p u : List Char) :
    isPrefOf p u = true ↔ ∃ r, u = p ++ r := by
  induction p generalizing u with
  | nil => simp [isPrefOf_nil]
  | cons a as ih =>
    cases u with
    | nil => simp [isPrefOf]
    | cons b bs =>
      simp only [isPrefOf, Bool.and_eq_true, decide_eq_true_eq, ih]
      constructor
      · rintro ⟨rfl, r, rfl⟩; exact ⟨r, rfl⟩
      · rintro ⟨r, hr⟩
        cases hr
        exact ⟨rfl, r, rfl⟩

lemma isPrefOf_append_self (u v : List Char) : isPrefOf u (u ++ v) = true := by
  rw [isPrefOf_iff_append]; exact ⟨v, rfl⟩

lemma isPrefOf_append_right (pat u v : List Char) (h : pat.length ≤ u.length) :
    isPrefOf pat (u ++ v) = isPrefOf pat u := by
  induction pat generalizing u with
  | nil => simp [isPrefOf_nil]
  | cons a as ih =>
    cases u with
    | nil => simp at h
    | cons b bs =>
      simp only [List.cons_append, isPrefOf, List.append_eq]
      rw [ih bs (by simpa using h)]

lemma isPrefOf_append_long (pat u v : List Char) (h : u.length < pat.length) :
    isPrefOf pat (u ++ v) = (isPrefOf u pat && isPrefOf (pat.drop u.length) v) := by
  induction u generalizing pat with
  | nil => simp [isPrefOf_nil]
  | cons b bs ih =>
    cases pat with
    | nil => simp at h
    | cons a as =>
      simp only [List.cons_append, isPrefOf, List.drop_succ_cons, List.append_eq]
      rw [ih as (by simpa using h)]
      cases hab : decide (a = b) <;> cases hba : decide (b = a) <;>
        simp_all [eq_comm, Bool.and_assoc]

lemma firstIdxFrom_char_of_not_mem {c : Char} {xs : List Char} (h : c ∉ xs) :
    firstIdxFrom [c] xs = none := by
  induction xs with
  | nil => simp [firstIdxFrom]
  | cons x rest ih =>
    simp only [List.mem_cons, not_or] at h
    have hx : isPrefOf [c] (x :: rest) = false := by
      simp [isPrefOf, h.1, Ne.symm h.1]
    simp [firstIdxFrom, hx, ih h.2]

lemma firstIdxFrom_char_of_mem {c : Char} {xs : List Char} (h : c ∈ xs) :
    firstIdxFrom [c] xs = some ((xs.takeWhile (fun x => decide (x ≠ c))).length) := by
  induction xs with
  | nil => simp at h
  | cons x rest ih =>
    by_cases hx : x = c
    · subst hx
      have : isPrefOf [x] (x :: rest) = true := by simp [isPrefOf]
      simp [firstIdxFrom, this, List.takeWhile]
    · have hpre : isPrefOf [c] (x :: rest) = false := by
        simp [isPrefOf, Ne.symm hx]
      have hmem : c ∈ rest := by
        rcases List.mem_cons.mp h with h' | h'
        · exact absurd h'.symm hx
        · exact h'
      simp [firstIdxFrom, hpre, ih hmem, List.takeWhile, hx]

lemma take_takeWhile_len (q : Char → Bool) (l : List Char) :
    l.take ((l.takeWhile q).length) = l.takeWhile q := by
  induction l with
  | nil => simp
  | cons x rest ih =>
    by_cases hx : q x = true
    · simp [List.takeWhile, hx, ih]
    · simp [List.takeWhile, hx]

lemma takeWhile_eq_self_of (q : Char → Bool) (l : List Char)
    (h : ∀ x ∈ l, q x = true) : l.takeWhile q = l := by
  induction l with
  | nil => simp
  | cons x rest ih =>
    simp [List.takeWhile, h x (by simp), ih (fun y hy => h y (by simp [hy]))]

lemma isPrefOf_append_long_false (a b rest : List Char) (hl : b.length < a.length)
    (hf : isPrefOf b a = false) : isPrefOf a (b ++ rest) = false := by
  rw [isPrefOf_append_long _ _ _ hl, hf, Bool.false_and]

lemma find?_formats_self (p : List Char) (hp : p ∈ formats) (rest : List Char) :
    formats.find? (fun q => isPrefOf q (p ++ rest)) = some p := by
  simp only [formats, List.mem_cons, List.not_mem_nil, or_false] at hp
  rcases hp with rfl | rfl | rfl | rfl
  · have h3 := isPrefOf_append_self "http://steamcommunity.com/profiles/".data rest
    simp at h3
    simp [formats, List.find?, h3]
  · have h0 := isPrefOf_append_long_false "http://steamcommunity.com/profiles/".data
      "http://steamcommunity.com/id/".data rest (by decide) (by decide)
    have h3 := isPrefOf_append_self "http://steamcommunity.com/id/".data rest
    simp at h0 h3
    simp [formats, List.find?, h0, h3]
  · have h0 := isPrefOf_append_long_false "http://steamcommunity.com/profiles/".data
      "steamcommunity.com/profiles/".data rest (by decide) (by decide)
    have h1 := isPrefOf_append_long_false "http://steamcommunity.com/id/".data
      "steamcommunity.com/profiles/".data rest (by decide) (by decide)
    have h3 := isPrefOf_append_self "steamcommunity.com/profiles/".data rest
    simp at h0 h1 h3
    simp [formats, List.find?, h0, h1, h3]
  · have h0 := isPrefOf_append_long_false "http://steamcommunity.com/profiles/".data
      "steamcommunity.com/id/".data rest (by decide) (by decide)
    have h1 := isPrefOf_append_long_false "http://steamcommunity.com/id/".data
      "steamcommunity.com/id/".data rest (by decide) (by decide)
    have h2 := isPrefOf_append_long_false "steamcommunity.com/profiles/".data
      "steamcommunity.com/id/".data rest (by decide) (by decide)
    have h3 := isPrefOf_append_self "steamcommunity.com/id/".data rest
    simp at h0 h1 h2 h3
    simp [formats, List.find?, h0, h1, h2, h3]

/-- C5: for every raw identifier beginning with a recognized prefixed
address form, `verify_steam_url_format` succeeds and yields exactly one
candidate address, consisting of the matched format followed by the
identifier segment only — every trailing path segment after the first
`/` past the format is removed (the address may additionally gain the
`http://` scheme). -/
theorem c5_prefixed_single_candidate (url p : List Char) (hp : p ∈ formats)
    (hpre : isPrefOf p url = true) :
    ∃ addr, verify_steam_url_format url = .ok addr ∧
      (addr = p ++ (url.drop p.length).takeWhile (fun c => decide (c ≠ '/')) ∨
       addr = "http://".data ++
         (p ++ (url.drop p.length).takeWhile (fun c => decide (c ≠ '/')))) ∧
      ∀ c ∈ (url.drop p.length).takeWhile (fun c => decide (c ≠ '/')), c ≠ '/' := by
  obtain ⟨rest, rfl⟩ := (isPrefOf_iff_append p url).mp hpre
  have hmemtw : ∀ c ∈ rest.takeWhile (fun c => decide (c ≠ '/')), c ≠ '/' := by
    intro c hc
    have := List.mem_takeWhile_imp hc
    simpa using this
  have hdrop : (p ++ rest).drop p.length = rest := List.drop_left p rest
  have hfind := find?_formats_self p hp rest
  simp only [hdrop]
  by_cases hs : '/' ∈ rest
  · have h1 : findFrom (p ++ rest) ['/'] p.length =
        some ((rest.takeWhile (fun c => decide (c ≠ '/'))).length + p.length) := by
      rw [findFrom, hdrop, firstIdxFrom_char_of_mem hs]
      rfl
    have h2 : (p ++ rest).take
          ((rest.takeWhile (fun c => decide (c ≠ '/'))).length + p.length) =
        p ++ rest.takeWhile (fun c => decide (c ≠ '/')) := by
      rw [Nat.add_comm, List.take_append, take_takeWhile_len]
    simp only [verify_steam_url_format, hfind, h1, h2]
    by_cases hc : isSubstrOf "http://".data
        (p ++ rest.takeWhile (fun c => decide (c ≠ '/'))) = true
    · rw [if_pos hc]
      exact ⟨_, rfl, Or.inl rfl, hmemtw⟩
    · rw [if_neg hc]
      exact ⟨_, rfl, Or.inr rfl, hmemtw⟩
  · have h1 : findFrom (p ++ rest) ['/'] p.length = none := by
      rw [findFrom, hdrop, firstIdxFrom_char_of_not_mem hs]
      rfl
    have h2 : rest.takeWhile (fun c => decide (c ≠ '/')) = rest :=
      takeWhile_eq_self_of _ rest
        (fun x hx => by simp only [decide_eq_true_eq]; rintro rfl; exact hs hx)
    simp only [h2]
    simp only [verify_steam_url_format, hfind, h1]
    by_cases hc : isSubstrOf "http://".data (p ++ rest) = true
    · rw [if_pos hc]
      exact ⟨_, rfl, Or.inl rfl, fun c hc' => by rintro rfl; exact hs hc'⟩
    · rw [if_neg hc]
      exact ⟨_, rfl, Or.inr rfl, fun c hc' => by rintro rfl; exact hs hc'⟩

/-- C5 witness: a concrete prefixed identifier with a trailing path. -/
theorem c5_witness :
    ("steamcommunity.com/id/".data ∈ formats ∧
      isPrefOf "steamcommunity.com/id/".data
        "steamcommunity.com/id/gabe/games/?tab=all".data = true) ∧
    ∃ addr, verify_steam_url_format
        "steamcommunity.com/id/gabe/games/?tab=all".data = .ok addr ∧
      (addr = "steamcommunity.com/id/".data ++
          ("steamcommunity.com/id/gabe/games/?tab=all".data.drop
            "steamcommunity.com/id/".data.length).takeWhile (fun c => decide (c ≠ '/')) ∨
       addr = "http://".data ++
         ("steamcommunity.com/id/".data ++
          ("steamcommunity.com/id/gabe/games/?tab=all".data.drop
            "steamcommunity.com/id/".data.length).takeWhile (fun c => decide (c ≠ '/')))) ∧
      ∀ c ∈ ("steamcommunity.com/id/gabe/games/?tab=all".data.drop
          "steamcommunity.com/id/".data.length).takeWhile (fun c => decide (c ≠ '/')),
        c ≠ '/' :=
  ⟨⟨by decide, by decide⟩,
    c5_prefixed_single_candidate _ _ (by decide) (by decide)⟩

/-- C4 counterexample: the bare identifier `someuser` carries no
recognized prefix; `verify_steam_url_format` raises `MalformedSteamURL`
instead of producing candidate addresses. -/
theorem c4_counterexample_bare_id_fails :
    verify_steam_url_format "someuser".data = .error .malformedSteamURL := by
  decide

/-- C4 amended: for every bare (unprefixed) raw identifier — one that no
recognized format prefixes — normalization fails with
`MalformedSteamURL`; no candidate address (let alone two) is produced. -/
theorem c4_amended_bare_id_malformed (url : List Char)
    (h : ∀ p ∈ formats, isPrefOf p url = false) :
    verify_steam_url_format url = .error .malformedSteamURL := by
  rw [verify_steam_url_format]
  have hnone : formats.find? (fun possible => isPrefOf possible url) = none := by
    apply List.find?_eq_none.mpr
    intro p hp
    simp [h p hp]
  rw [hnone]

/-- C4 witness for the amended claim, at the bare identifier
`someuser`. -/
theorem c4_amended_witness :
    (∀ p ∈ formats, isPrefOf p "someuser".data = false) ∧
    verify_steam_url_format "someuser".data = .error .malformedSteamURL :=
  ⟨by decide, c4_amended_bare_id_malformed _ (by decide)⟩


lemma sharedOf_cons_pos (pd : List Player) (kv : JAtom × JAtom) (rest : Catalog)
    (hc : 1 < (membershipRow kv.1 pd).count true) :
    sharedOf pd (kv :: rest) = (kv.1, membershipRow kv.1 pd) :: sharedOf pd rest := by
  rw [sharedOf, List.filterMap_cons]
  simp only [if_pos hc]
  rfl

lemma sharedOf_cons_neg (pd : List Player) (kv : JAtom × JAtom) (rest : Catalog)
    (hc : ¬ 1 < (membershipRow kv.1 pd).count true) :
    sharedOf pd (kv :: rest) = sharedOf pd rest := by
  rw [sharedOf, List.filterMap_cons]
  simp only [if_neg hc]
  rfl

lemma dictFind_sharedOf_not_mem (pd : List Player) (mg : Catalog) (a : JAtom)
    (h : a ∉ mg.map Prod.fst) : dictFind (sharedOf pd mg) a = none := by
  induction mg with
  | nil => simp [sharedOf, dictFind]
  | cons kv rest ih =>
    simp only [List.map_cons, List.mem_cons, not_or] at h
    by_cases hc : 1 < (membershipRow kv.1 pd).count true
    · rw [sharedOf_cons_pos pd kv rest hc, dictFind, if_neg (Ne.symm h.1)]
      exact ih h.2
    · rw [sharedOf_cons_neg pd kv rest hc]
      exact ih h.2

lemma dictFind_sharedOf_mem (pd : List Player) (mg : Catalog) (a : JAtom)
    (h : a ∈ mg.map Prod.fst) :
    dictFind (sharedOf pd mg) a =
      if 1 < (membershipRow a pd).count true then some (membershipRow a pd)
      else none := by
  induction mg with
  | nil => simp at h
  | cons kv rest ih =>
    by_cases hk : kv.1 = a
    · subst hk
      by_cases hc : 1 < (membershipRow kv.1 pd).count true
      · rw [sharedOf_cons_pos pd kv rest hc, dictFind, if_pos rfl, if_pos hc]
      · rw [sharedOf_cons_neg pd kv rest hc, if_neg hc]
        by_cases hm : kv.1 ∈ rest.map Prod.fst
        · rw [ih hm, if_neg hc]
        · exact dictFind_sharedOf_not_mem pd rest kv.1 hm
    · have hm : a ∈ rest.map Prod.fst := by
        simp only [List.map_cons, List.mem_cons] at h
        rcases h with h | h
        · exact absurd h.symm hk
        · exact h
      by_cases hc : 1 < (membershipRow kv.1 pd).count true
      · rw [sharedOf_cons_pos pd kv rest hc, dictFind, if_neg hk]
        exact ih hm
      · rw [sharedOf_cons_neg pd kv rest hc]
        exact ih hm

/-- C3: `find_common_games` retains exactly the games owned by more than
one player.  For every appid of the catalog, the result maps the appid
to its ordered per-player ownership row exactly when that row holds more
than one `true`; and on players `A` owning appids 1,2,3 and `B` owning
2,3,4 (all four appids in the catalog), the result keeps exactly appids
2 and 3, each with row `[true, true]`. -/
theorem c3_common_games_exactly_shared (mg : Catalog) (pd : List Player) (a : JAtom)
    (ha : a ∈ mg.map Prod.fst) :
    ((∃ m, find_common_games pd mg = some m ∧
        dictFind m a = some (membershipRow a pd)) ↔
      1 < (membershipRow a pd).count true) ∧
    (∀ m row, find_common_games pd mg = some m → dictFind m a = some row →
      row = membershipRow a pd) ∧
    find_common_games
      [⟨JDoc.single (.atom (.jstr "A".data)), [JAtom.jnum 1, JAtom.jnum 2, JAtom.jnum 3]⟩,
       ⟨JDoc.single (.atom (.jstr "B".data)), [JAtom.jnum 2, JAtom.jnum 3, JAtom.jnum 4]⟩]
      [(JAtom.jnum 1, JAtom.jstr "t1".data), (JAtom.jnum 2, JAtom.jstr "t2".data),
       (JAtom.jnum 3, JAtom.jstr "t3".data), (JAtom.jnum 4, JAtom.jstr "t4".data)] =
      some [(JAtom.jnum 2, [true, true]), (JAtom.jnum 3, [true, true])] := by
  have key := dictFind_sharedOf_mem pd mg a ha
  refine ⟨⟨?_, ?_⟩, ?_, ?_⟩
  · rintro ⟨m, hm, hfind⟩
    rw [find_common_games] at hm
    split at hm
    · cases hm
    · cases hm
      rw [key] at hfind
      by_contra hcnt
      rw [if_neg hcnt] at hfind
      cases hfind
  · intro hcnt
    have hne : sharedOf pd mg ≠ [] := by
      intro h0
      rw [h0] at key
      rw [if_pos hcnt] at key
      cases key
    refine ⟨sharedOf pd mg, by rw [find_common_games, if_neg hne], ?_⟩
    rw [key, if_pos hcnt]
  · intro m row hm hfind
    rw [find_common_games] at hm
    split at hm
    · cases hm
    · cases hm
      rw [key] at hfind
      split at hfind
      · cases hfind
        rfl
      · cases hfind
  · decide

/-- C3 witness: instantiated at appid 2 of the example catalog, where
both players own the game. -/
theorem c3_witness :
    JAtom.jnum 2 ∈
      ([(JAtom.jnum 1, JAtom.jstr "t1".data), (JAtom.jnum 2, JAtom.jstr "t2".data),
        (JAtom.jnum 3, JAtom.jstr "t3".data),
        (JAtom.jnum 4, JAtom.jstr "t4".data)] : Catalog).map Prod.fst ∧
    ((∃ m, find_common_games
        [⟨JDoc.single (.atom (.jstr "A".data)), [JAtom.jnum 1, JAtom.jnum 2, JAtom.jnum 3]⟩,
         ⟨JDoc.single (.atom (.jstr "B".data)), [JAtom.jnum 2, JAtom.jnum 3, JAtom.jnum 4]⟩]
        [(JAtom.jnum 1, JAtom.jstr "t1".data), (JAtom.jnum 2, JAtom.jstr "t2".data),
         (JAtom.jnum 3, JAtom.jstr "t3".data), (JAtom.jnum 4, JAtom.jstr "t4".data)] = some m ∧
        dictFind m (JAtom.jnum 2) = some (membershipRow (JAtom.jnum 2)
          [⟨JDoc.single (.atom (.jstr "A".data)), [JAtom.jnum 1, JAtom.jnum 2, JAtom.jnum 3]⟩,
           ⟨JDoc.single (.atom (.jstr "B".data)), [JAtom.jnum 2, JAtom.jnum 3, JAtom.jnum 4]⟩])) ↔
      1 < (membershipRow (JAtom.jnum 2)
        [⟨JDoc.single (.atom (.jstr "A".data)), [JAtom.jnum 1, JAtom.jnum 2, JAtom.jnum 3]⟩,
         ⟨JDoc.single (.atom (.jstr "B".data)), [JAtom.jnum 2, JAtom.jnum 3, JAtom.jnum 4]⟩]).count true) :=
  ⟨by decide,
    (c3_common_games_exactly_shared _
      [⟨JDoc.single (.atom (.jstr "A".data)), [JAtom.jnum 1, JAtom.jnum 2, JAtom.jnum 3]⟩,
       ⟨JDoc.single (.atom (.jstr "B".data)), [JAtom.jnum 2, JAtom.jnum 3, JAtom.jnum 4]⟩]
      (JAtom.jnum 2) (by decide)).1⟩

/-- C7: when no game is owned by more than one player,
`find_common_games` returns the distinguished `None` signal; and in
general the function never returns an empty mapping, so `None` is
distinguishable from every `some` result. -/
theorem c7_no_overlap_returns_none (mg : Catalog) (pd : List Player)
    (h : ∀ a ∈ mg.map Prod.fst, (membershipRow a pd).count true ≤ 1) :
    find_common_games pd mg = none ∧
      ∀ (pd' : List Player) (mg' : Catalog), find_common_games pd' mg' ≠ some [] := by
  constructor
  · have hempty : sharedOf pd mg = [] := by
      rw [sharedOf, List.filterMap_eq_nil_iff]
      intro kv hkv
      rw [if_neg]
      exact Nat.not_lt.mpr (h kv.1 (List.mem_map_of_mem Prod.fst hkv))
    rw [find_common_games, if_pos hempty]
  · intro pd' mg' hcontra
    rw [find_common_games] at hcontra
    split at hcontra
    · cases hcontra
    · next hne => exact hne (Option.some.inj hcontra)

/-- C7 witness: two players with non-overlapping game sets. -/
theorem c7_witness :
    (∀ a ∈ ([(JAtom.jnum 1, JAtom.jstr "t1".data),
        (JAtom.jnum 2, JAtom.jstr "t2".data)] : Catalog).map Prod.fst,
      (membershipRow a
        [⟨JDoc.single (.atom (.jstr "A".data)), [JAtom.jnum 1]⟩,
         ⟨JDoc.single (.atom (.jstr "B".data)), [JAtom.jnum 2]⟩]).count true ≤ 1) ∧
    find_common_games
      [⟨JDoc.single (.atom (.jstr "A".data)), [JAtom.jnum 1]⟩,
       ⟨JDoc.single (.atom (.jstr "B".data)), [JAtom.jnum 2]⟩]
      [(JAtom.jnum 1, JAtom.jstr "t1".data), (JAtom.jnum 2, JAtom.jstr "t2".data)] = none :=
  ⟨by decide,
    (c7_no_overlap_returns_none
      [(JAtom.jnum 1, JAtom.jstr "t1".data), (JAtom.jnum 2, JAtom.jstr "t2".data)]
      [⟨JDoc.single (.atom (.jstr "A".data)), [JAtom.jnum 1]⟩,
       ⟨JDoc.single (.atom (.jstr "B".data)), [JAtom.jnum 2]⟩]
      (by decide)).1⟩

lemma dictFind_dictInsert_self {α β : Type} [DecidableEq α]
    (m : List (α × β)) (k : α) (v : β) : dictFind (dictInsert m k v) k = some v := by
  induction m with
  | nil => simp [dictInsert, dictFind]
  | cons kv rest ih =>
    rw [dictInsert]
    split
    · rw [dictFind, if_pos rfl]
    · next hne => rw [dictFind, if_neg hne]; exact ih

lemma dictFind_dictInsert_ne {α β : Type} [DecidableEq α]
    (m : List (α × β)) (k k' : α) (v : β) (h : k' ≠ k) :
    dictFind (dictInsert m k v) k' = dictFind m k' := by
  induction m with
  | nil => simp [dictInsert, dictFind, Ne.symm h]
  | cons kv rest ih =>
    rw [dictInsert]
    split
    · next heq =>
      rw [dictFind, if_neg (Ne.symm h), dictFind, if_neg]
      rw [heq]
      exact Ne.symm h
    · rw [dictFind, dictFind]
      split
      · rfl
      · exact ih

lemma processGames_err (l : List JEntity) :
    ∀ (pg : List JAtom) (mg : Catalog) (e : Err),
      (processGames l pg mg).2.2 = some e → e = .keyError ∨ e = .typeError := by
  induction l with
  | nil => intro pg mg e h; simp [processGames] at h
  | cons ent rest ih =>
    intro pg mg e h
    cases ent with
    | atom a =>
      simp only [processGames] at h
      cases h
      exact Or.inr rfl
    | obj kvs =>
      rw [processGames] at h
      split at h
      · cases h
        exact Or.inl rfl
      · split at h
        · cases h
          exact Or.inl rfl
        · exact ih _ _ _ h

lemma extract_from_err (s : List Char) (mg : Catalog) (e : Err)
    (h : (extract_from s mg).2 = .error e) :
    e = .findNameError ∨ e = .findGamesError ∨ e = .jsonDecodeError ∨
      e = .keyError ∨ e = .typeError := by
  rw [extract_from] at h
  cases h1 : firstIdxFrom pnMark s with
  | none => simp only [h1] at h; cases h; tauto
  | some i =>
  simp only [h1] at h
  cases h2 : firstIdxFrom ['"'] (s.drop i) with
  | none => simp only [h2] at h; cases h; tauto
  | some a =>
  simp only [h2] at h
  cases h3 : firstIdxFrom [';'] (s.drop i) with
  | none => simp only [h3] at h; cases h; tauto
  | some b =>
  simp only [h3] at h
  cases h4 : jsonLoads (sliceL (s.drop i) a b) with
  | none => simp only [h4] at h; cases h; tauto
  | some name =>
  simp only [h4] at h
  cases h5 : firstIdxFrom rgMark s with
  | none => simp only [h5] at h; cases h; tauto
  | some j =>
  simp only [h5] at h
  cases h6 : firstIdxFrom ['['] (s.drop j) with
  | none => simp only [h6] at h; cases h; tauto
  | some c =>
  simp only [h6] at h
  cases h7 : firstIdxFrom [']'] (s.drop j) with
  | none => simp only [h7] at h; cases h; tauto
  | some d =>
  simp only [h7] at h
  cases h8 : jsonLoads (sliceL (s.drop j) c (d + 1)) with
  | none => simp only [h8] at h; cases h; tauto
  | some v =>
  cases v with
  | arr xs =>
    rcases h9 : processGames xs [] mg with ⟨pg, mg', oe⟩
    cases oe with
    | none => simp only [h8, h9] at h; cases h
    | some e' =>
      simp only [h8, h9] at h
      cases h
      have := processGames_err xs [] mg e (by rw [h9])
      tauto
  | single ent =>
    cases ent with
    | atom a' =>
      cases a' with
      | jstr t =>
        simp only [h8] at h
        by_cases ht : t = []
        · rw [if_pos ht] at h; cases h
        · rw [if_neg ht] at h; cases h; tauto
      | jnum n => simp only [h8] at h; cases h; tauto
    | obj kvs =>
      simp only [h8] at h
      by_cases hk : kvs = []
      · rw [if_pos hk] at h; cases h
      · rw [if_neg hk] at h; cases h; tauto

lemma extract_from_mg (s : List Char) (mg : Catalog) (e : Err)
    (h : (extract_from s mg).2 = .error e) (hk : e ≠ .keyError) (ht : e ≠ .typeError) :
    (extract_from s mg).1 = mg := by
  rw [extract_from] at h ⊢
  cases h1 : firstIdxFrom pnMark s with
  | none => simp only [h1]
  | some i =>
  simp only [h1] at h ⊢
  cases h2 : firstIdxFrom ['"'] (s.drop i) with
  | none => simp only [h2]
  | some a =>
  simp only [h2] at h ⊢
  cases h3 : firstIdxFrom [';'] (s.drop i) with
  | none => simp only [h3]
  | some b =>
  simp only [h3] at h ⊢
  cases h4 : jsonLoads (sliceL (s.drop i) a b) with
  | none => simp only [h4]
  | some name =>
  simp only [h4] at h ⊢
  cases h5 : firstIdxFrom rgMark s with
  | none => simp only [h5]
  | some j =>
  simp only [h5] at h ⊢
  cases h6 : firstIdxFrom ['['] (s.drop j) with
  | none => simp only [h6]
  | some c =>
  simp only [h6] at h ⊢
  cases h7 : firstIdxFrom [']'] (s.drop j) with
  | none => simp only [h7]
  | some d =>
  simp only [h7] at h ⊢
  cases h8 : jsonLoads (sliceL (s.drop j) c (d + 1)) with
  | none => simp only [h8]
  | some v =>
  cases v with
  | arr xs =>
    rcases h9 : processGames xs [] mg with ⟨pg, mg', oe⟩
    cases oe with
    | none => simp only [h8, h9] at h; cases h
    | some e' =>
      simp only [h8, h9] at h
      cases h
      rcases processGames_err xs [] mg e (by rw [h9]) with h' | h'
      · exact absurd h' hk
      · exact absurd h' ht
  | single ent =>
    cases ent with
    | atom a' =>
      cases a' with
      | jstr t =>
        simp only [h8] at h ⊢
        by_cases htt : t = []
        · rw [if_pos htt] at h; cases h
        · rw [if_neg htt] at h; cases h; exact absurd rfl ht
      | jnum n => simp only [h8] at h; cases h; exact absurd rfl ht
    | obj kvs =>
      simp only [h8] at h ⊢
      by_cases hkk : kvs = []
      · rw [if_pos hkk] at h; cases h
      · rw [if_neg hkk] at h; cases h; exact absurd rfl ht

lemma get_html_ok (resp : Response) (hstatus : resp.status = 200)
    (hct : isSubstrOf "text/html".data resp.contentType = true) :
    get_html resp = .ok resp.doc := by
  rw [get_html, if_neg (by simp [hstatus]), if_neg (by simp [hct])]

lemma get_html_fail (resp : Response)
    (h : resp.status ≠ 200 ∨ isSubstrOf "text/html".data resp.contentType = false) :
    get_html resp = .error .assertionError := by
  rw [get_html]
  rcases h with h | h
  · rw [if_pos h]
  · by_cases hs : resp.status ≠ 200
    · rw [if_pos hs]
    · rw [if_neg hs, if_pos (by simp [h])]

/-- C8: a response with a non-success status code, or whose content type
is not an HTML document, makes `get_html` fail the `assert`, and the
`AssertionError` propagates out of `get_player_and_games` untouched (the
catalog is also untouched); `AssertionError` is distinct from every
profile-classification outcome, so a transport fault is never mapped to
a missing/private/malformed classification. -/
theorem c8_transport_fault_hard_error (fetch : List Char → Response) (url : List Char)
    (mg : Catalog)
    (h : (fetch (url ++ gamesSuffix)).status ≠ 200 ∨
      isSubstrOf "text/html".data (fetch (url ++ gamesSuffix)).contentType = false) :
    get_player_and_games fetch url mg = (mg, .error .assertionError) ∧
      Err.assertionError ≠ .missingProfile ∧ Err.assertionError ≠ .privateProfile ∧
      Err.assertionError ≠ .malformedSteamURL ∧ Err.assertionError ≠ .findNameError ∧
      Err.assertionError ≠ .findGamesError := by
  refine ⟨?_, by decide, by decide, by decide, by decide, by decide⟩
  simp only [get_player_and_games, get_html_fail _ h]

/-- C8 witness: a 404 response aborts resolution with `AssertionError`. -/
theorem c8_witness :
    (((fun _ => Response.mk 404 htmlCT docNoGames) ("u".data ++ gamesSuffix)).status ≠ 200 ∨
      isSubstrOf "text/html".data
        ((fun _ => Response.mk 404 htmlCT docNoGames)
          ("u".data ++ gamesSuffix)).contentType = false) ∧
    get_player_and_games (fun _ => Response.mk 404 htmlCT docNoGames) "u".data [] =
      ([], .error .assertionError) :=
  ⟨Or.inl (by decide),
    (c8_transport_fault_hard_error (fun _ => Response.mk 404 htmlCT docNoGames)
      "u".data [] (Or.inl (by decide))).1⟩

/-- C6: classification of a fetched document follows the structural
markers.  A document with the game-list marker is viable: the outcome is
never the private-profile or missing-profile classification (extraction
proceeds, succeeding or failing with an extraction error).  A document
without the game-list marker but with the restricted marker yields
`PrivateProfile`; one with neither marker yields `MissingProfile`. -/
theorem c6_classification_by_markers (fetch : List Char → Response) (url : List Char)
    (mg : Catalog)
    (hstatus : (fetch (url ++ gamesSuffix)).status = 200)
    (hct : isSubstrOf "text/html".data (fetch (url ++ gamesSuffix)).contentType = true) :
    ((fetch (url ++ gamesSuffix)).doc.hasGamesList = true →
      ∀ e, (get_player_and_games fetch url mg).2 = .error e →
        e ≠ .privateProfile ∧ e ≠ .missingProfile) ∧
    ((fetch (url ++ gamesSuffix)).doc.hasGamesList = false →
      (fetch (url ++ gamesSuffix)).doc.hasPrivateInfo = true →
      get_player_and_games fetch url mg = (mg, .error .privateProfile)) ∧
    ((fetch (url ++ gamesSuffix)).doc.hasGamesList = false →
      (fetch (url ++ gamesSuffix)).doc.hasPrivateInfo = false →
      get_player_and_games fetch url mg = (mg, .error .missingProfile)) := by
  have hok := get_html_ok _ hstatus hct
  refine ⟨?_, ?_, ?_⟩
  · intro hv e he
    simp only [get_player_and_games, hok] at he
    rw [if_pos hv] at he
    rcases extract_from_err _ _ _ he with rfl | rfl | rfl | rfl | rfl <;>
      exact ⟨by decide, by decide⟩
  · intro hg hp
    simp only [get_player_and_games, hok]
    rw [if_neg (by simp [hg]), if_pos hp]
  · intro hg hp
    simp only [get_player_and_games, hok]
    rw [if_neg (by simp [hg]), if_neg (by simp [hp])]

/-- C6 witness: a 200 HTML document with neither marker is classified
`MissingProfile`. -/
theorem c6_witness :
    (((fun _ => mkResp (Doc.mk false false [])) ("u".data ++ gamesSuffix)).status = 200 ∧
      isSubstrOf "text/html".data
        ((fun _ => mkResp (Doc.mk false false []))
          ("u".data ++ gamesSuffix)).contentType = true) ∧
    get_player_and_games (fun _ => mkResp (Doc.mk false false [])) "u".data [] =
      ([], .error .missingProfile) :=
  ⟨⟨by decide, by decide⟩,
    (c6_classification_by_markers (fun _ => mkResp (Doc.mk false false []))
      "u".data [] (by decide) (by decide)).2.2 rfl rfl⟩

/-- C10: marker precedence — the game-list marker wins.  For a
successfully fetched document holding the game-list marker (even
together with the restricted marker), the outcome is never
`PrivateProfile`; conversely a `PrivateProfile` outcome implies the
game-list marker was absent. -/
theorem c10_games_list_marker_precedence (fetch : List Char → Response) (url : List Char)
    (mg : Catalog)
    (hstatus : (fetch (url ++ gamesSuffix)).status = 200)
    (hct : isSubstrOf "text/html".data (fetch (url ++ gamesSuffix)).contentType = true) :
    ((fetch (url ++ gamesSuffix)).doc.hasGamesList = true →
      (get_player_and_games fetch url mg).2 ≠ .error .privateProfile) ∧
    ((get_player_and_games fetch url mg).2 = .error .privateProfile →
      (fetch (url ++ gamesSuffix)).doc.hasGamesList = false) := by
  have hok := get_html_ok _ hstatus hct
  have main : (fetch (url ++ gamesSuffix)).doc.hasGamesList = true →
      (get_player_and_games fetch url mg).2 ≠ .error .privateProfile := by
    intro hv hcontra
    simp only [get_player_and_games, hok] at hcontra
    rw [if_pos hv] at hcontra
    rcases extract_from_err _ _ _ hcontra with h' | h' | h' | h' | h' <;> cases h'
  refine ⟨main, ?_⟩
  intro hpriv
  cases hb : (fetch (url ++ gamesSuffix)).doc.hasGamesList with
  | false => rfl
  | true => exact absurd hpriv (main hb)

/-- C10 witness: a document with both markers resolves through
extraction, not as `PrivateProfile`. -/
theorem c10_witness :
    (((fun _ => mkResp docBoth) ("u".data ++ gamesSuffix)).status = 200 ∧
      isSubstrOf "text/html".data
        ((fun _ => mkResp docBoth) ("u".data ++ gamesSuffix)).contentType = true ∧
      docBoth.hasGamesList = true ∧ docBoth.hasPrivateInfo = true) ∧
    (get_player_and_games (fun _ => mkResp docBoth) "u".data []).2 ≠
      .error .privateProfile :=
  ⟨⟨by decide, by decide, by decide, by decide⟩,
    (c10_games_list_marker_precedence (fun _ => mkResp docBoth) "u".data []
      (by decide) (by decide)).1 rfl⟩

/-- C1 counterexample: merging two players whose raw data assigns
different titles to appid 1 overwrites the originally recorded title.
After the first player the catalog titles appid 1 `First`; merging the
second player (whose data titles it `Second`) leaves the catalog holding
`Second`, not the original `First`. -/
theorem c1_counterexample_title_overwritten :
    dictFind (get_player_and_games (fun _ => mkResp docTitleA) "u".data []).1
        (JAtom.jnum 1) = some (JAtom.jstr "First".data) ∧
    dictFind (get_player_and_games (fun _ => mkResp docTitleB) "u".data
        (get_player_and_games (fun _ => mkResp docTitleA) "u".data []).1).1
        (JAtom.jnum 1) = some (JAtom.jstr "Second".data) ∧
    JAtom.jstr "Second".data ≠ JAtom.jstr "First".data :=
  ⟨by decide, by decide, by decide⟩

/-- C1 amended: the catalog merge in `get_player_and_games` is
last-write-wins, not first-write-wins.  After a successful run of the
record-merging loop, a key already present in the catalog holds the last
title the player's records assign to it, or keeps its previous value
when no record mentions it. -/
theorem c1_amended_last_write_wins (rs : List JEntity) :
    ∀ (pg pg' : List JAtom) (mg mg' : Catalog) (k v : JAtom),
      processGames rs pg mg = (pg', mg', none) →
      dictFind mg k = some v →
      dictFind mg' k = some ((lastTitleFor k rs).getD v) := by
  induction rs with
  | nil =>
    intro pg pg' mg mg' k v hrun hmem
    rw [processGames] at hrun
    cases hrun
    simpa [lastTitleFor] using hmem
  | cons ent rest ih =>
    intro pg pg' mg mg' k v hrun hmem
    cases ent with
    | atom a => rw [processGames] at hrun; cases hrun
    | obj kvs =>
      rw [processGames] at hrun
      cases ha : dictFind kvs "appid".data with
      | none => rw [ha] at hrun; cases hrun
      | some appid =>
        rw [ha] at hrun
        cases hn : dictFind kvs "name".data with
        | none => simp only [hn] at hrun; cases hrun
        | some t =>
          simp only [hn] at hrun
          by_cases hkeq : k = appid
          · subst hkeq
            have hins : dictFind (dictInsert mg k t) k = some t :=
              dictFind_dictInsert_self mg k t
            have := ih _ _ _ _ k t hrun hins
            rw [this, lastTitleFor]
            cases hlast : lastTitleFor k rest with
            | some t' => simp
            | none => simp [ha, hn]
          · have hins : dictFind (dictInsert mg appid t) k = some v := by
              rw [dictFind_dictInsert_ne mg appid k t hkeq]
              exact hmem
            have := ih _ _ _ _ k v hrun hins
            rw [this, lastTitleFor]
            cases hlast : lastTitleFor k rest with
            | some t' => simp
            | none =>
              simp only [ha, Option.some.injEq]
              rw [if_neg (fun hc => hkeq (by rw [hc]))]

/-- C1 amended witness: one record re-titling appid 1 to `T2` overwrites
the recorded title `T1`. -/
theorem c1_amended_witness :
    processGames [JEntity.obj [("appid".data, JAtom.jnum 1), ("name".data, JAtom.jstr "T2".data)]]
        [] [(JAtom.jnum 1, JAtom.jstr "T1".data)] =
      ([JAtom.jnum 1], [(JAtom.jnum 1, JAtom.jstr "T2".data)], none) ∧
    dictFind [(JAtom.jnum 1, JAtom.jstr "T1".data)] (JAtom.jnum 1) =
      some (JAtom.jstr "T1".data) ∧
    dictFind [(JAtom.jnum 1, JAtom.jstr "T2".data)] (JAtom.jnum 1) =
      some ((lastTitleFor (JAtom.jnum 1)
        [JEntity.obj [("appid".data, JAtom.jnum 1),
          ("name".data, JAtom.jstr "T2".data)]]).getD (JAtom.jstr "T1".data)) :=
  ⟨by decide, by decide,
    c1_amended_last_write_wins
      [JEntity.obj [("appid".data, JAtom.jnum 1), ("name".data, JAtom.jstr "T2".data)]]
      [] [JAtom.jnum 1] [(JAtom.jnum 1, JAtom.jstr "T1".data)]
      [(JAtom.jnum 1, JAtom.jstr "T2".data)] (JAtom.jnum 1) (JAtom.jstr "T1".data)
      (by decide) (by decide)⟩

/-- C2 counterexample: a viable document whose game-list fragment
decodes as a list whose second record lacks a title (`name` key).  The
run fails with `KeyError` — not `FindGamesError` — and the catalog is
partially mutated: the first record's pair has been merged. -/
theorem c2_counterexample_partial_merge :
    get_player_and_games (fun _ => mkResp docPartial) "u".data [] =
      ([(JAtom.jnum 1, JAtom.jstr "X".data)], .error .keyError) ∧
    Err.keyError ≠ Err.findGamesError ∧
    [(JAtom.jnum 1, JAtom.jstr "X".data)] ≠ ([] : Catalog) :=
  ⟨by decide, by decide, by decide⟩

/-- C2 amended: failure atomicity holds only for the failures raised
before the record-merging loop.  Whenever `get_player_and_games` fails
with an error other than the `KeyError`/`TypeError` raised inside the
loop — in particular `FindGamesError` from a missing marker or
unmatchable delimiters, and the JSON decode error from an undecodable
fragment (which is not `FindGamesError`, since `json.loads` sits outside
the `try`) — the catalog is left entirely unchanged.  A record list
failing mid-loop may leave earlier records merged. -/
theorem c2_amended_atomic_only_before_loop (fetch : List Char → Response)
    (url : List Char) (mg : Catalog) (e : Err)
    (he : (get_player_and_games fetch url mg).2 = .error e)
    (hk : e ≠ .keyError) (ht : e ≠ .typeError) :
    (get_player_and_games fetch url mg).1 = mg ∧
    get_player_and_games (fun _ => mkResp docBadJson) "u".data [] =
      ([], .error .jsonDecodeError) := by
  refine ⟨?_, by decide⟩
  rw [get_player_and_games] at he ⊢
  cases hgh : get_html (fetch (url ++ gamesSuffix)) with
  | error e'' => simp only [hgh]
  | ok doc =>
    simp only [hgh] at he ⊢
    by_cases hv : doc.hasGamesList = true
    · rw [if_pos hv] at he ⊢
      exact extract_from_mg _ _ _ he hk ht
    · rw [if_neg hv] at he ⊢
      split <;> rfl

/-- C2 amended witness: a viable document with no `rgGames` marker fails
with `FindGamesError` and leaves the catalog untouched. -/
theorem c2_amended_witness :
    ((get_player_and_games (fun _ => mkResp docNoGames) "u".data []).2 =
        .error .findGamesError ∧
      Err.findGamesError ≠ Err.keyError ∧ Err.findGamesError ≠ Err.typeError) ∧
    ((get_player_and_games (fun _ => mkResp docNoGames) "u".data []).1 = [] ∧
      get_player_and_games (fun _ => mkResp docBadJson) "u".data [] =
        ([], .error .jsonDecodeError)) :=
  ⟨⟨by decide, by decide, by decide⟩,
    c2_amended_atomic_only_before_loop (fun _ => mkResp docNoGames) "u".data []
      .findGamesError (by decide) (by decide) (by decide)⟩

lemma isPrefOf_nil_right (pat : List Char) (h : pat ≠ []) : isPrefOf pat [] = false := by
  cases pat with
  | nil => exact absurd rfl h
  | cons a as => rfl

lemma NoOcc_of_bounded (pat u : List Char) (hne : pat ≠ [])
    (h : ∀ i < u.length, isPrefOf pat (u.drop i) = false) : NoOcc pat u := by
  intro i
  by_cases hi : i < u.length
  · exact h i hi
  · rw [List.drop_eq_nil_of_le (by omega)]
    exact isPrefOf_nil_right pat hne

lemma isPrefOf_head_ne (p0 c : Char) (ps ys : List Char) (h : p0 ≠ c) :
    isPrefOf (p0 :: ps) (c :: ys) = false := by
  simp [isPrefOf, h]

lemma firstIdxFrom_exact (pat : List Char) :
    ∀ (xs ys : List Char),
      (∀ i < xs.length, isPrefOf pat ((xs ++ ys).drop i) = false) →
      isPrefOf pat ys = true →
      firstIdxFrom pat (xs ++ ys) = some xs.length := by
  intro xs
  induction xs with
  | nil =>
    intro ys _ hhit
    cases ys with
    | nil =>
      cases pat with
      | nil => rfl
      | cons a as => rw [isPrefOf_nil_right _ (by simp)] at hhit; cases hhit
    | cons y ys' =>
      simp only [List.nil_append, firstIdxFrom, hhit, if_true, List.length_nil]
  | cons x xs' ih =>
    intro ys hstart hhit
    have h0 := hstart 0 (by simp)
    simp only [List.drop_zero, List.cons_append] at h0
    rw [List.cons_append, firstIdxFrom, if_neg (by simp [h0])]
    rw [ih ys ?_ hhit]
    · simp
    · intro i hi
      have := hstart (i + 1) (by simp; omega)
      simpa using this

lemma firstIdxFrom_char_exact (c : Char) :
    ∀ (xs ys : List Char), c ∉ xs →
      firstIdxFrom [c] (xs ++ c :: ys) = some xs.length := by
  intro xs
  induction xs with
  | nil =>
    intro ys _
    have : isPrefOf [c] (c :: ys) = true := by simp [isPrefOf]
    simp [firstIdxFrom, this]
  | cons x xs' ih =>
    intro ys hx
    simp only [List.mem_cons, not_or] at hx
    have hpf : isPrefOf [c] (x :: (xs' ++ c :: ys)) = false :=
      isPrefOf_head_ne c x [] _ hx.1
    rw [List.cons_append, firstIdxFrom, if_neg (by simp [hpf])]
    rw [ih ys hx.2]
    simp

lemma noStart_block (pat u : List Char) (c : Char) (ys : List Char)
    (hpat : pat ≠ []) (hc : c ∉ pat) (hno : NoOcc pat u) :
    ∀ i < (u ++ [c]).length, isPrefOf pat (((u ++ [c]) ++ ys).drop i) = false := by
  intro i hi
  rw [List.append_assoc, List.singleton_append]
  by_cases hlt : i < u.length
  · rw [List.drop_append_of_le_length (le_of_lt hlt)]
    by_cases hl : pat.length ≤ (u.drop i).length
    · rw [isPrefOf_append_right _ _ _ hl]
      exact hno i
    · rw [isPrefOf_append_long _ _ _ (by omega)]
      cases hpd : pat.drop (u.drop i).length with
      | nil =>
        exfalso
        have h1 := congrArg List.length hpd
        rw [List.length_drop] at h1
        simp only [List.length_nil] at h1
        omega
      | cons p0 ps =>
        have hp0 : p0 ∈ pat := by
          have hmem : p0 ∈ pat.drop (u.drop i).length := by rw [hpd]; simp
          exact List.mem_of_mem_drop hmem
        have hne : p0 ≠ c := by rintro rfl; exact hc hp0
        rw [isPrefOf_head_ne _ _ _ _ hne]
        simp
  · have hieq : i = u.length := by simp at hi; omega
    subst hieq
    rw [List.drop_append_of_le_length (le_refl _), List.drop_length, List.nil_append]
    cases pat with
    | nil => exact absurd rfl hpat
    | cons p0 ps =>
      have hne : p0 ≠ c := by rintro rfl; exact hc (List.mem_cons_self _ _)
      exact isPrefOf_head_ne _ _ _ _ hne

lemma noStart_append (pat x1 x2 ys : List Char)
    (h1 : ∀ i < x1.length, isPrefOf pat ((x1 ++ (x2 ++ ys)).drop i) = false)
    (h2 : ∀ i < x2.length, isPrefOf pat ((x2 ++ ys).drop i) = false) :
    ∀ i < (x1 ++ x2).length, isPrefOf pat (((x1 ++ x2) ++ ys).drop i) = false := by
  intro i hi
  rw [List.append_assoc]
  by_cases hlt : i < x1.length
  · exact h1 i hlt
  · have hlen : i - x1.length < x2.length := by simp at hi; omega
    have hdrop : (x1 ++ (x2 ++ ys)).drop i = (x2 ++ ys).drop (i - x1.length) := by
      have heq : i = x1.length + (i - x1.length) := by omega
      rw [heq, List.drop_append]
      congr 1
      omega
    rw [hdrop]
    exact h2 _ hlen

lemma isDig_digCh (d : Nat) (h : d < 10) : isDig (digCh d) = true := by
  interval_cases d <;> decide

lemma digVal_digCh (d : Nat) (h : d < 10) : digVal (digCh d) = d := by
  interval_cases d <;> decide

lemma natToChars_ne_nil (n : Nat) : natToChars n ≠ [] := by
  rw [natToChars]
  split <;> simp

lemma natToChars_all_digits (n : Nat) : ∀ c ∈ natToChars n, isDig c = true := by
  induction n using Nat.strong_induction_on with
  | _ n ih =>
    rw [natToChars]
    split
    · next h =>
      intro c hc
      simp only [List.mem_singleton] at hc
      subst hc
      exact isDig_digCh n h
    · next h =>
      intro c hc
      simp only [List.mem_append, List.mem_singleton] at hc
      rcases hc with hc | hc
      · exact ih (n / 10) (Nat.div_lt_self (by omega) (by omega)) c hc
      · subst hc
        exact isDig_digCh (n % 10) (Nat.mod_lt _ (by omega))

lemma charsToNat_append_digit (xs : List Char) (c : Char) :
    charsToNat (xs ++ [c]) = 10 * charsToNat xs + digVal c := by
  simp [charsToNat, List.foldl_append]

lemma charsToNat_natToChars (n : Nat) : charsToNat (natToChars n) = n := by
  induction n using Nat.strong_induction_on with
  | _ n ih =>
    rw [natToChars]
    split
    · next h =>
      show charsToNat [digCh n] = n
      simp [charsToNat, digVal_digCh n h]
    · next h =>
      rw [charsToNat_append_digit, ih (n / 10) (Nat.div_lt_self (by omega) (by omega)),
        digVal_digCh (n % 10) (Nat.mod_lt _ (by omega))]
      omega

lemma takeWhile_append_stop (q : Char → Bool) (xs : List Char) (y : Char) (ys : List Char)
    (hx : ∀ x ∈ xs, q x = true) (hy : q y = false) :
    (xs ++ y :: ys).takeWhile q = xs ∧ (xs ++ y :: ys).dropWhile q = y :: ys := by
  induction xs with
  | nil => simp [List.takeWhile, List.dropWhile, hy]
  | cons x xs' ih =>
    have hq := hx x (by simp)
    have ihh := ih (fun z hz => hx z (by simp [hz]))
    simp only [List.cons_append, List.takeWhile, List.dropWhile, List.append_eq,
      hq, ihh.1, ihh.2]
    exact ⟨trivial, trivial⟩

lemma parseStrBody_closed (name : List Char) :
    ∀ rest, (∀ c ∈ name, strOk c = true) →
      parseStrBody (name ++ '"' :: rest) = some (name, rest) := by
  induction name with
  | nil =>
    intro rest _
    rw [List.nil_append, parseStrBody, if_pos rfl]
  | cons c cs ih =>
    intro rest h
    have hc := h c (by simp)
    have hcq : ¬ c = '"' := by
      intro hq
      rw [hq] at hc
      exact absurd hc (by decide)
    rw [List.cons_append, parseStrBody, if_neg hcq, if_pos hc,
      ih rest (fun z hz => h z (by simp [hz]))]
    rfl

lemma parseAtom_num (n : Nat) (y : Char) (ys : List Char)
    (hy : isDig y = false) :
    parseAtom (natToChars n ++ y :: ys) = some (.jnum n, y :: ys) := by
  cases hnc : natToChars n with
  | nil => exact absurd hnc (natToChars_ne_nil n)
  | cons c cs =>
    have hall : ∀ z ∈ c :: cs, isDig z = true := by
      rw [← hnc]
      exact natToChars_all_digits n
    have hdig : isDig c = true := hall c (by simp)
    have hcq : ¬ c = '"' := by
      intro h
      rw [h] at hdig
      exact absurd hdig (by decide)
    have hstop := takeWhile_append_stop isDig (c :: cs) y ys hall hy
    rw [List.cons_append, parseAtom, if_neg hcq, if_pos hdig]
    rw [show c :: (cs ++ y :: ys) = (c :: cs) ++ y :: ys from rfl, hstop.1, hstop.2]
    rw [show charsToNat (c :: cs) = n from hnc ▸ charsToNat_natToChars n]

lemma skipWs_cons_not (c : Char) (s : List Char) (h : isWs c = false) :
    skipWs (c :: s) = c :: s := by
  rw [skipWs, if_neg (by simp [h])]

lemma skipWs_cons_ws (c : Char) (s : List Char) (h : isWs c = true) :
    skipWs (c :: s) = skipWs s := by
  rw [skipWs, if_pos h]

lemma isWs_eq_false_of_isDig (c : Char) (h : isDig c = true) : isWs c = false := by
  by_contra hw
  have hw' : isWs c = true := by
    cases hiw : isWs c
    · exact absurd hiw hw
    · rfl
  simp only [isWs, Bool.or_eq_true, decide_eq_true_eq] at hw'
  rcases hw' with ((rfl | rfl) | rfl) | rfl <;> exact absurd h (by decide)

lemma skipWs_natToChars (n : Nat) (X : List Char) :
    skipWs (natToChars n ++ X) = natToChars n ++ X := by
  cases hnc : natToChars n with
  | nil => exact absurd hnc (natToChars_ne_nil n)
  | cons c cs =>
    rw [List.cons_append]
    refine skipWs_cons_not _ _ (isWs_eq_false_of_isDig c ?_)
    have : c ∈ natToChars n := by rw [hnc]; simp
    exact natToChars_all_digits n c this

lemma parseStrBody_appid (X : List Char) :
    parseStrBody ('a' :: 'p' :: 'p' :: 'i' :: 'd' :: '"' :: X) = some ("appid".data, X) :=
  parseStrBody_closed "appid".data X (by decide)

lemma parseStrBody_name_key (X : List Char) :
    parseStrBody ('n' :: 'a' :: 'm' :: 'e' :: '"' :: X) = some ("name".data, X) :=
  parseStrBody_closed "name".data X (by decide)

lemma parseAtom_str (tl : List Char) (h : ∀ c ∈ tl, strOk c = true) (X : List Char) :
    parseAtom ('"' :: (tl ++ '"' :: X)) = some (.jstr tl, X) := by
  rw [parseAtom, if_pos rfl, parseStrBody_closed tl X h]
  rfl

lemma parseEntity_printRec (f : Nat) (r : Nat × List Char) (rest : List Char)
    (ht : ∀ c ∈ r.2, strOk c = true) :
    parseEntity (f + 2) (printRec r ++ rest) = some (recEnt r, rest) := by
  have h_q : ∀ s : List Char, skipWs ('"' :: s) = '"' :: s :=
    fun s => skipWs_cons_not _ _ (by decide)
  have h_col : ∀ s : List Char, skipWs (':' :: s) = ':' :: s :=
    fun s => skipWs_cons_not _ _ (by decide)
  have h_com : ∀ s : List Char, skipWs (',' :: s) = ',' :: s :=
    fun s => skipWs_cons_not _ _ (by decide)
  have h_lb : ∀ s : List Char, skipWs (lbrace :: s) = lbrace :: s :=
    fun s => skipWs_cons_not _ _ (by decide)
  have h_rb : ∀ s : List Char, skipWs (rbrace :: s) = rbrace :: s :=
    fun s => skipWs_cons_not _ _ (by decide)
  have h_sp : ∀ s : List Char, skipWs (' ' :: s) = skipWs s :=
    fun s => skipWs_cons_ws _ _ (by decide)
  have h_dig := skipWs_natToChars r.1
  have h_title := parseAtom_str r.2 ht
  have h_num : ∀ ys : List Char,
      parseAtom (natToChars r.1 ++ ',' :: ys) = some (.jnum r.1, ',' :: ys) :=
    fun ys => parseAtom_num r.1 ',' ys (by decide)
  have e1 : (('"' : Char) = rbrace) = False := eq_false (by decide)
  have e2 : (('"' : Char) = lbrace) = False := eq_false (by decide)
  have e3 : ((rbrace : Char) = ',') = False := eq_false (by decide)
  have e4 : ((['a', 'p', 'p', 'i', 'd'] : List Char) = ['n', 'a', 'm', 'e']) = False :=
    eq_false (by decide)
  simp only [printRec, recEnt, List.append_assoc, List.cons_append, List.nil_append,
    parseEntity, parseEntries, h_q, h_col, h_com, h_lb, h_rb, h_sp, h_dig,
    parseStrBody_appid, parseStrBody_name_key, h_title, h_num, e1, e2, e3, e4,
    eq_self_iff_true, if_true, if_false, ite_true, ite_false, dictInsert,
    Option.map_some']

lemma parseItems_cons_ws (fuel : Nat) (c : Char) (s : List Char) (h : isWs c = true) :
    parseItems fuel (c :: s) = parseItems fuel s := by
  cases fuel with
  | zero => rfl
  | succ f => simp only [parseItems, skipWs_cons_ws c s h]

lemma printRec_cons (r : Nat × List Char) (X : List Char) :
    printRec r ++ X = lbrace :: ("\"appid\": ".data ++ natToChars r.1 ++
      ", \"name\": \"".data ++ r.2 ++ ['"', rbrace] ++ X) := by
  simp [printRec]

lemma parseItems_cons_entity (f : Nat) (c0 : Char) (tl : List Char)
    (hws : isWs c0 = false) (hc : ¬ c0 = ']')
    (e : JEntity) (rest1 : List Char)
    (hent : parseEntity f (c0 :: tl) = some (e, rest1)) :
    parseItems (f + 1) (c0 :: tl) =
      (match skipWs rest1 with
       | [] => none
       | c1 :: rest2 =>
         if c1 = ',' then (parseItems f rest2).map (fun p => (e :: p.1, p.2))
         else if c1 = ']' then some ([e], rest2) else none) := by
  simp only [parseItems, skipWs_cons_not c0 tl hws, hent]
  rw [if_neg hc]

lemma printRec_len_pos (r : Nat × List Char) : 0 < (printRec r).length := by
  simp [printRec]

lemma printRecs_len (recs : List (Nat × List Char)) :
    recs.length ≤ (printRecs recs).length + 1 := by
  induction recs with
  | nil => simp [printRecs]
  | cons r rs ih =>
    cases rs with
    | nil => simp [printRecs]
    | cons r2 rs2 =>
      have hpr3 : printRecs (r :: r2 :: rs2) =
          printRec r ++ ", ".data ++ printRecs (r2 :: rs2) := rfl
      rw [hpr3]
      have := printRec_len_pos r
      simp only [List.length_cons, List.length_append]
      simp only [List.length_cons] at ih
      omega

lemma parseItems_printRecs (recs : List (Nat × List Char)) :
    ∀ (F : Nat) (rest : List Char),
      recs.length + 2 ≤ F →
      (∀ r ∈ recs, ∀ c ∈ r.2, strOk c = true) →
      parseItems F (printRecs recs ++ ']' :: rest) = some (recs.map recEnt, rest) := by
  induction recs with
  | nil =>
    intro F rest hF _
    obtain ⟨F', rfl⟩ : ∃ F', F = F' + 1 := ⟨F - 1, by omega⟩
    rw [printRecs, List.nil_append]
    simp only [parseItems, skipWs_cons_not _ _ (by decide : isWs ']' = false)]
    simp
  | cons r rs ih =>
    intro F rest hF ht
    simp only [List.length_cons] at hF
    obtain ⟨f, rfl⟩ : ∃ f, F = (f + 2) + 1 := ⟨F - 3, by omega⟩
    have htr : ∀ c ∈ r.2, strOk c = true := ht r (by simp)
    cases rs with
    | nil =>
      rw [show printRecs [r] = printRec r from rfl]
      rw [printRec_cons r (']' :: rest)]
      rw [parseItems_cons_entity (f + 2) lbrace _ (by decide) (by decide) (recEnt r)
        (']' :: rest)
        (by rw [← printRec_cons r (']' :: rest)]; exact parseEntity_printRec f r _ htr)]
      rw [skipWs_cons_not _ _ (by decide : isWs ']' = false)]
      simp only [if_neg (by decide : ¬ (']' = ','))]
      simp
    | cons r2 rs2 =>
      have hmid : printRecs (r :: r2 :: rs2) ++ ']' :: rest =
          printRec r ++ (',' :: ' ' :: (printRecs (r2 :: rs2) ++ ']' :: rest)) := by
        have hpr3 : printRecs (r :: r2 :: rs2) =
            printRec r ++ ", ".data ++ printRecs (r2 :: rs2) := rfl
        rw [hpr3]
        simp [List.append_assoc]
      rw [hmid, printRec_cons r (',' :: ' ' :: (printRecs (r2 :: rs2) ++ ']' :: rest))]
      rw [parseItems_cons_entity (f + 2) lbrace _ (by decide) (by decide) (recEnt r)
        (',' :: ' ' :: (printRecs (r2 :: rs2) ++ ']' :: rest))
        (by rw [← printRec_cons r (',' :: ' ' :: (printRecs (r2 :: rs2) ++ ']' :: rest))]
            exact parseEntity_printRec f r _ htr)]
      rw [skipWs_cons_not _ _ (by decide : isWs ',' = false)]
      simp only [if_pos (rfl : (',' : Char) = ',')]
      rw [parseItems_cons_ws (f + 2) ' ' _ (by decide)]
      rw [ih (f + 2) rest (by simp at hF ⊢; omega) (fun q hq => ht q (by simp [hq]))]
      simp

lemma jsonLoads_gamesFrag (recs : List (Nat × List Char))
    (ht : ∀ r ∈ recs, ∀ c ∈ r.2, strOk c = true) :
    jsonLoads (gamesFrag recs) = some (.arr (recs.map recEnt)) := by
  have hg : gamesFrag recs = '[' :: (printRecs recs ++ ']' :: []) := by
    simp [gamesFrag]
  rw [hg, jsonLoads]
  rw [skipWs_cons_not _ _ (by decide : isWs '[' = false)]
  simp only [if_pos (rfl : ('[' : Char) = '[')]
  have hF : recs.length + 2 ≤ ('[' :: (printRecs recs ++ ']' :: [])).length + 1 := by
    have := printRecs_len recs
    simp only [List.length_cons, List.length_append]
    omega
  rw [parseItems_printRecs recs _ [] hF ht]
  simp [skipWs]

lemma dictInsert_append_fresh {α β : Type} [DecidableEq α]
    (m : List (α × β)) (k : α) (v : β) (h : ∀ kv ∈ m, kv.1 ≠ k) :
    dictInsert m k v = m ++ [(k, v)] := by
  induction m with
  | nil => rfl
  | cons kv rest ih =>
    rw [dictInsert, if_neg (h kv (by simp)), ih (fun q hq => h q (by simp [hq]))]
    rfl

lemma processGames_recs (recs : List (Nat × List Char)) :
    ∀ (pg : List JAtom) (mg : Catalog),
      (∀ r ∈ recs, JAtom.jnum r.1 ∉ pg) →
      (∀ r ∈ recs, ∀ kv ∈ mg, kv.1 ≠ JAtom.jnum r.1) →
      (recs.map Prod.fst).Nodup →
      processGames (recs.map recEnt) pg mg =
        (pg ++ recs.map (fun r => JAtom.jnum r.1),
         mg ++ recs.map (fun r => (JAtom.jnum r.1, JAtom.jstr r.2)), none) := by
  induction recs with
  | nil =>
    intro pg mg _ _ _
    simp [processGames]
  | cons r rs ih =>
    intro pg mg hpg hmg hnd
    have ha : dictFind [("appid".data, JAtom.jnum r.1), ("name".data, JAtom.jstr r.2)]
        "appid".data = some (JAtom.jnum r.1) := by
      rw [dictFind, if_pos rfl]
    have hn : dictFind [("appid".data, JAtom.jnum r.1), ("name".data, JAtom.jstr r.2)]
        "name".data = some (JAtom.jstr r.2) := by
      rw [dictFind, if_neg (by decide), dictFind, if_pos rfl]
    simp only [List.map_cons, recEnt, processGames, ha, hn]
    rw [setAdd, if_neg (hpg r (by simp))]
    rw [dictInsert_append_fresh mg _ _ (fun kv hkv => hmg r (by simp) kv hkv)]
    simp only [List.nodup_cons, List.map_cons, List.mem_map] at hnd
    have hne : ∀ q ∈ rs, q.1 ≠ r.1 := by
      intro q hq hcontra
      exact hnd.1 ⟨q, hq, hcontra⟩
    rw [ih (pg ++ [JAtom.jnum r.1]) (mg ++ [(JAtom.jnum r.1, JAtom.jstr r.2)]) ?_ ?_ hnd.2]
    · simp [List.append_assoc]
    · intro q hq
      simp only [List.mem_append, List.mem_singleton, not_or]
      refine ⟨hpg q (by simp [hq]), ?_⟩
      intro hcontra
      exact hne q hq (JAtom.jnum.inj hcontra)
    · intro q hq kv hkv
      simp only [List.mem_append, List.mem_singleton] at hkv
      rcases hkv with hkv | hkv
      · exact hmg q (by simp [hq]) kv hkv
      · subst hkv
        intro hcontra
        exact hne q hq (JAtom.jnum.inj hcontra.symm)

lemma scan_pn (name : List Char) (recs : List (Nat × List Char)) :
    firstIdxFrom pnMark (mkText name recs) = some 7 := by
  rw [mkText]
  have hstart : ∀ i < docHeader.length,
      isPrefOf pnMark ((docHeader ++ nameTail name recs).drop i) = false := by
    have hb := noStart_block pnMark "<html>".data '\n' (nameTail name recs)
      (by decide) (by decide) (NoOcc_of_bounded pnMark "<html>".data (by decide) (by decide))
    intro i hi
    have h1 : docHeader = "<html>".data ++ ['\n'] := by decide
    rw [h1] at hi ⊢
    exact hb i hi
  have hpre : isPrefOf pnMark (nameTail name recs) = true := by
    rw [nameTail]
    exact isPrefOf_append_self _ _
  rw [firstIdxFrom_exact pnMark docHeader (nameTail name recs) hstart hpre]
  rfl

lemma drop7_mkText (name : List Char) (recs : List (Nat × List Char)) :
    (mkText name recs).drop 7 = nameTail name recs := by
  rw [mkText]
  exact List.drop_left' (by decide)

lemma nameTail_quote_shape (name : List Char) (recs : List (Nat × List Char)) :
    nameTail name recs = (pnMark ++ " = ".data) ++
      '"' :: (name ++ '"' :: ';' :: '\n' :: gamesTail recs) := by
  simp [nameTail, afterPn, nameFrag, List.append_assoc]

lemma scan_quote (name : List Char) (recs : List (Nat × List Char)) :
    firstIdxFrom ['"'] (nameTail name recs) = some 14 := by
  rw [nameTail_quote_shape]
  rw [firstIdxFrom_char_exact '"' (pnMark ++ " = ".data) _ (by decide)]
  rfl

lemma nameTail_semi_shape (name : List Char) (recs : List (Nat × List Char)) :
    nameTail name recs = ((pnMark ++ " = ".data) ++ '"' :: (name ++ ['"'])) ++
      ';' :: ('\n' :: gamesTail recs) := by
  simp [nameTail, afterPn, nameFrag, List.append_assoc]

lemma scan_semi (name : List Char) (recs : List (Nat × List Char))
    (hname : ';' ∉ name) :
    firstIdxFrom [';'] (nameTail name recs) = some (name.length + 16) := by
  rw [nameTail_semi_shape]
  have hnot : ';' ∉ ((pnMark ++ " = ".data) ++ '"' :: (name ++ ['"'])) := by
    intro hmem
    rcases List.mem_append.mp hmem with h | h
    · revert h; decide
    · rcases List.mem_cons.mp h with h | h
      · exact absurd h (by decide)
      · rcases List.mem_append.mp h with h | h
        · exact hname h
        · revert h; decide
  rw [firstIdxFrom_char_exact ';' _ _ hnot]
  have hlen : ((pnMark ++ " = ".data) ++ '"' :: (name ++ ['"'])).length =
      name.length + 16 := by
    rw [List.length_append, show (pnMark ++ " = ".data).length = 14 from by decide,
      List.length_cons, List.length_append,
      show (['"'] : List Char).length = 1 from rfl]
    omega
  rw [hlen]

lemma slice_nameFrag (name : List Char) (recs : List (Nat × List Char)) :
    sliceL (nameTail name recs) 14 (name.length + 16) = nameFrag name := by
  rw [sliceL]
  have hsub : name.length + 16 - 14 = name.length + 2 := by omega
  rw [hsub]
  have hdrop : (nameTail name recs).drop 14 =
      nameFrag name ++ (';' :: '\n' :: gamesTail recs) := by
    have hshape : nameTail name recs = (pnMark ++ " = ".data) ++
        (nameFrag name ++ (';' :: '\n' :: gamesTail recs)) := by
      simp [nameTail, afterPn, nameFrag, List.append_assoc]
    rw [hshape]
    exact List.drop_left' (by decide)
  rw [hdrop]
  refine List.take_left' ?_
  rw [nameFrag, List.length_append, List.length_append,
    show ((['"'] : List Char)).length = 1 from rfl]
  omega

lemma mkText_pre_shape (name : List Char) (recs : List (Nat × List Char)) :
    mkText name recs =
      ((((docHeader ++ pnMark ++ " = ".data) ++ ['"']) ++ (name ++ ['"'])) ++
        ([';'] ++ ['\n'])) ++ gamesTail recs := by
  simp [mkText, nameTail, afterPn, nameFrag, List.append_assoc]

lemma scan_rg (name : List Char) (recs : List (Nat × List Char))
    (hnoRg : NoOcc rgMark name) :
    firstIdxFrom rgMark (mkText name recs) = some (name.length + 25) := by
  rw [mkText_pre_shape]
  have h1a := noStart_block rgMark (docHeader ++ pnMark ++ " = ".data) '"'
    ((name ++ ['"']) ++ (([';'] ++ ['\n']) ++ gamesTail recs))
    (by decide) (by decide)
    (NoOcc_of_bounded rgMark (docHeader ++ pnMark ++ " = ".data) (by decide) (by decide))
  have h1b := noStart_block rgMark name '"' (([';'] ++ ['\n']) ++ gamesTail recs)
    (by decide) (by decide) hnoRg
  have h2 := noStart_block rgMark [';'] '\n' (gamesTail recs)
    (by decide) (by decide) (NoOcc_of_bounded rgMark [';'] (by decide) (by decide))
  have h12 := noStart_append rgMark ((docHeader ++ pnMark ++ " = ".data) ++ ['"'])
    (name ++ ['"']) (([';'] ++ ['\n']) ++ gamesTail recs) h1a h1b
  have hfull := noStart_append rgMark
    (((docHeader ++ pnMark ++ " = ".data) ++ ['"']) ++ (name ++ ['"']))
    ([';'] ++ ['\n']) (gamesTail recs) h12 h2
  have hpre : isPrefOf rgMark (gamesTail recs) = true := by
    rw [gamesTail]
    exact isPrefOf_append_self _ _
  rw [firstIdxFrom_exact rgMark _ _ hfull hpre]
  have hlen : ((((docHeader ++ pnMark ++ " = ".data) ++ ['"']) ++ (name ++ ['"'])) ++
      ([';'] ++ ['\n'])).length = name.length + 25 := by
    rw [List.length_append, List.length_append, List.length_append,
      show (docHeader ++ pnMark ++ " = ".data).length = 21 from by decide,
      List.length_append,
      show ((['"'] : List Char)).length = 1 from rfl,
      show (([';'] ++ ['\n'] : List Char)).length = 2 from rfl]
    omega
  rw [hlen]

lemma dropRg_mkText (name : List Char) (recs : List (Nat × List Char)) :
    (mkText name recs).drop (name.length + 25) = gamesTail recs := by
  rw [mkText_pre_shape]
  refine List.drop_left' ?_
  rw [List.length_append, List.length_append, List.length_append,
    show (docHeader ++ pnMark ++ " = ".data).length = 21 from by decide,
    List.length_append,
    show ((['"'] : List Char)).length = 1 from rfl,
    show (([';'] ++ ['\n'] : List Char)).length = 2 from rfl]
  omega

lemma gamesTail_lb_shape (recs : List (Nat × List Char)) :
    gamesTail recs = (rgMark ++ " = ".data) ++
      '[' :: (printRecs recs ++ ']' :: ';' :: docFooter) := by
  simp [gamesTail, afterRg, gamesFrag, List.append_assoc]

lemma scan_lb (recs : List (Nat × List Char)) :
    firstIdxFrom ['['] (gamesTail recs) = some 10 := by
  rw [gamesTail_lb_shape]
  rw [firstIdxFrom_char_exact '[' (rgMark ++ " = ".data) _ (by decide)]
  rfl

lemma rb_not_mem_printRec (r : Nat × List Char) (ht : ∀ c ∈ r.2, c ≠ ']') :
    ']' ∉ printRec r := by
  intro hmem
  rw [printRec] at hmem
  rcases List.mem_append.mp hmem with h | h
  · rcases List.mem_append.mp h with h | h
    · rcases List.mem_append.mp h with h | h
      · rcases List.mem_append.mp h with h | h
        · rcases List.mem_append.mp h with h | h
          · revert h; decide
          · revert h; decide
        · exact absurd (natToChars_all_digits r.1 ']' h) (by decide)
      · revert h; decide
    · exact ht ']' h rfl
  · revert h; decide

lemma rb_not_mem_printRecs (recs : List (Nat × List Char))
    (ht : ∀ r ∈ recs, ∀ c ∈ r.2, c ≠ ']') : ']' ∉ printRecs recs := by
  induction recs with
  | nil => simp [printRecs]
  | cons r rs ih =>
    cases rs with
    | nil =>
      exact rb_not_mem_printRec r (ht r (by simp))
    | cons r2 rs2 =>
      have hpr3 : printRecs (r :: r2 :: rs2) =
          printRec r ++ ", ".data ++ printRecs (r2 :: rs2) := rfl
      rw [hpr3]
      intro hmem
      simp only [List.mem_append] at hmem
      rcases hmem with (h | h) | h
      · exact rb_not_mem_printRec r (ht r (by simp)) h
      · revert h; decide
      · exact ih (fun q hq => ht q (by simp [hq])) h

lemma gamesTail_rb_shape (recs : List (Nat × List Char)) :
    gamesTail recs = ((rgMark ++ " = ".data) ++ '[' :: printRecs recs) ++
      ']' :: (';' :: docFooter) := by
  simp [gamesTail, afterRg, gamesFrag, List.append_assoc]

lemma scan_rb (recs : List (Nat × List Char))
    (ht : ∀ r ∈ recs, ∀ c ∈ r.2, c ≠ ']') :
    firstIdxFrom [']'] (gamesTail recs) = some (11 + (printRecs recs).length) := by
  rw [gamesTail_rb_shape]
  have hnot : ']' ∉ ((rgMark ++ " = ".data) ++ '[' :: printRecs recs) := by
    intro hmem
    rcases List.mem_append.mp hmem with h | h
    · revert h; decide
    · rcases List.mem_cons.mp h with h | h
      · exact absurd h (by decide)
      · exact rb_not_mem_printRecs recs ht h
  rw [firstIdxFrom_char_exact ']' _ _ hnot]
  have hlen : ((rgMark ++ " = ".data) ++ '[' :: printRecs recs).length =
      11 + (printRecs recs).length := by
    rw [List.length_append, List.length_cons,
      show (rgMark ++ " = ".data).length = 10 from by decide]
    omega
  rw [hlen]

lemma slice_gamesFrag (recs : List (Nat × List Char)) :
    sliceL (gamesTail recs) 10 (11 + (printRecs recs).length + 1) = gamesFrag recs := by
  rw [sliceL]
  have hsub : 11 + (printRecs recs).length + 1 - 10 = (printRecs recs).length + 2 := by
    omega
  rw [hsub]
  have hdrop : (gamesTail recs).drop 10 = gamesFrag recs ++ (';' :: docFooter) := by
    have hshape : gamesTail recs = (rgMark ++ " = ".data) ++
        (gamesFrag recs ++ (';' :: docFooter)) := by
      simp [gamesTail, afterRg, gamesFrag, List.append_assoc]
    rw [hshape]
    exact List.drop_left' (by decide)
  rw [hdrop]
  refine List.take_left' ?_
  rw [gamesFrag, List.length_append, List.length_append,
    show ((['['] : List Char)).length = 1 from rfl,
    show (([']'] : List Char)).length = 1 from rfl]
  omega

lemma parseEntity_strAtom (fuel : Nat) (name rest : List Char)
    (h : ∀ c ∈ name, strOk c = true) :
    parseEntity fuel ('"' :: (name ++ '"' :: rest)) = some (.atom (.jstr name), rest) := by
  have hsw : skipWs ('"' :: (name ++ '"' :: rest)) = '"' :: (name ++ '"' :: rest) :=
    skipWs_cons_not _ _ (by decide)
  have hq : (('"' : Char) = lbrace) = False := eq_false (by decide)
  simp only [parseEntity, hsw, hq, if_false, ite_false, parseAtom,
    eq_self_iff_true, if_true, ite_true, parseStrBody_closed name rest h,
    Option.map_some']

lemma jsonLoads_strFrag (name : List Char) (h : ∀ c ∈ name, strOk c = true) :
    jsonLoads (nameFrag name) = some (.single (.atom (.jstr name))) := by
  have hfrag : nameFrag name = '"' :: (name ++ '"' :: []) := by
    simp [nameFrag]
  have hsw : skipWs ('"' :: (name ++ '"' :: [])) = '"' :: (name ++ '"' :: []) :=
    skipWs_cons_not _ _ (by decide)
  have hq : (('"' : Char) = '[') = False := eq_false (by decide)
  rw [hfrag]
  simp only [jsonLoads, hsw, hq, if_false, ite_false,
    parseEntity_strAtom _ name [] h,
    show skipWs ([] : List Char) = [] from rfl,
    eq_self_iff_true, if_true, ite_true]

lemma extract_from_mkText (name : List Char) (recs : List (Nat × List Char))
    (hstr : ∀ c ∈ name, strOk c = true) (hsemi : ';' ∉ name)
    (hnoRg : NoOcc rgMark name)
    (htstr : ∀ r ∈ recs, ∀ c ∈ r.2, strOk c = true)
    (htrb : ∀ r ∈ recs, ∀ c ∈ r.2, c ≠ ']')
    (hids : (recs.map Prod.fst).Nodup) :
    extract_from (mkText name recs) [] =
      (recs.map (fun r => (JAtom.jnum r.1, JAtom.jstr r.2)),
       .ok (JDoc.single (.atom (.jstr name)), recs.map (fun r => JAtom.jnum r.1))) := by
  have hjname := jsonLoads_strFrag name hstr
  have hjgames := jsonLoads_gamesFrag recs htstr
  have hproc := processGames_recs recs [] [] (by simp) (by simp) hids
  rw [extract_from]
  simp only [scan_pn name recs, drop7_mkText name recs, scan_quote name recs,
    scan_semi name recs hsemi, slice_nameFrag name recs, hjname,
    scan_rg name recs hnoRg, dropRg_mkText name recs, scan_lb recs,
    scan_rb recs htrb, slice_gamesFrag recs, hjgames, hproc, List.nil_append]

/-- C9: round-trip of extraction.  For every well-formed synthetic
viable document built from a display name and a list of game records
with distinct identifiers (characters restricted so that no delimiter or
marker collides: the name holds no quote, backslash, control character
or semicolon and does not contain the game-list marker; titles hold no
quote, backslash, control character or closing bracket),
`get_player_and_games` returns exactly the embedded name and exactly the
embedded identifiers, and records exactly the embedded
identifier-to-title mapping in the catalog. -/
theorem c9_round_trip (url name : List Char) (recs : List (Nat × List Char))
    (hstr : ∀ c ∈ name, strOk c = true) (hsemi : ';' ∉ name)
    (hnoRg : NoOcc rgMark name)
    (htstr : ∀ r ∈ recs, ∀ c ∈ r.2, strOk c = true)
    (htrb : ∀ r ∈ recs, ∀ c ∈ r.2, c ≠ ']')
    (hids : (recs.map Prod.fst).Nodup) :
    get_player_and_games (fun _ => mkResp (mkDoc name recs)) url [] =
      (recs.map (fun r => (JAtom.jnum r.1, JAtom.jstr r.2)),
       .ok (JDoc.single (.atom (.jstr name)), recs.map (fun r => JAtom.jnum r.1))) := by
  have hct : isSubstrOf "text/html".data (mkResp (mkDoc name recs)).contentType = true := by
    rw [show (mkResp (mkDoc name recs)).contentType = htmlCT from rfl]
    decide
  have hok : get_html (mkResp (mkDoc name recs)) = .ok (mkDoc name recs) :=
    get_html_ok _ rfl hct
  simp only [get_player_and_games, hok]
  rw [if_pos (show (mkDoc name recs).hasGamesList = true by rfl)]
  rw [show (mkDoc name recs).text = mkText name recs from rfl]
  exact extract_from_mkText name recs hstr hsemi hnoRg htstr htrb hids

/-- C9 witness: a concrete fixture with name `Alice` and games
`Portal` (appid 10) and `Half Life 2` (appid 20). -/
theorem c9_witness :
    ((∀ c ∈ "Alice".data, strOk c = true) ∧ ';' ∉ "Alice".data ∧
      (∀ i < ("Alice".data).length, isPrefOf rgMark (("Alice".data).drop i) = false) ∧
      (∀ r ∈ [((10 : Nat), "Portal".data), (20, "Half Life 2".data)],
        ∀ c ∈ r.2, strOk c = true ∧ c ≠ ']') ∧
      (([((10 : Nat), "Portal".data), (20, "Half Life 2".data)]).map Prod.fst).Nodup) ∧
    get_player_and_games
        (fun _ => mkResp (mkDoc "Alice".data
          [(10, "Portal".data), (20, "Half Life 2".data)]))
        "u".data [] =
      ([(JAtom.jnum 10, JAtom.jstr "Portal".data),
        (JAtom.jnum 20, JAtom.jstr "Half Life 2".data)],
       .ok (JDoc.single (.atom (.jstr "Alice".data)),
        [JAtom.jnum 10, JAtom.jnum 20])) :=
  ⟨⟨by decide, by decide, by decide, by decide, by decide⟩, by
    have h := c9_round_trip "u".data "Alice".data
      [(10, "Portal".data), (20, "Half Life 2".data)]
      (by decide) (by decide)
      (NoOcc_of_bounded rgMark "Alice".data (by decide) (by decide))
      (fun r hr => by
        simp only [List.mem_cons, List.not_mem_nil, or_false] at hr
        rcases hr with rfl | rfl <;> decide)
      (fun r hr => by
        simp only [List.mem_cons, List.not_mem_nil, or_false] at hr
        rcases hr with rfl | rfl <;> decide)
      (by decide)
    exact h⟩
